import Mathlib

/-!
# workout: the Master of the worker pool (`master.go`)

A shallow embedding of `master.go` and a verification of the registry and
life-cycle properties of `Master`.

Conventions of the embedding.

* A Go call runs on the calling goroutine and ends in one of three ways: it
  returns, it parks on a channel or wait group (`blocked`), or it panics.
  `Outcome` records which one, together with the state reached.
* A Go map is `nil` or a finite table; it is embedded as an optional lookup
  function.  Reading a `nil` map finds nothing, writing to it panics.
* A buffered channel is `nil` or a capacity with the queue of buffered values.
* `make` panics on a negative size and on a size whose memory is more than
  the runtime grants (`makechan` and `makeslice` of the Go runtime).  What the
  runtime grants is a parameter, `Runtime`.
* `sync.WaitGroup` is its counter, a signed 32-bit integer.  `Add` stores the
  sum, wrapped to 32 bits, and then panics if what it stored is negative;
  `Wait` parks while the counter is not zero.
* `int` and `time.Duration` are embedded as `Int`; no arithmetic of
  `master.go` can overflow (`i++` runs below `m.concurrency`).
-/

namespace Workout

/-! ## Go runtime values -/

/-- How a call ends on the calling goroutine, and the state it leaves. -/
inductive Outcome (σ : Type) where
  | returned (s : σ)
  | blocked (s : σ)
  | panicked (msg : String) (s : σ)

/-- The state a call leaves behind, however it ended. -/
def Outcome.state {σ : Type} : Outcome σ → σ
  | .returned s => s
  | .blocked s => s
  | .panicked _ s => s

/-- The call came back to its caller. -/
def Outcome.isReturned {σ : Type} : Outcome σ → Bool
  | .returned _ => true
  | _ => false

/-- The call is parked. -/
def Outcome.isBlocked {σ : Type} : Outcome σ → Bool
  | .blocked _ => true
  | _ => false

/-- The call panicked. -/
def Outcome.isPanicked {σ : Type} : Outcome σ → Bool
  | .panicked _ _ => true
  | _ => false

/-- A Go `error` value; `none` is `nil`. -/
abbrev GoError := Option String

/-- A Go `map[string]V`; `none` is the `nil` map. -/
abbrev GoMap (V : Type) := Option (String → Option V)

/-- The map built by `make(map[string]V)`: allocated and empty. -/
def GoMap.make {V : Type} : GoMap V := some (fun _ => none)

/-- Lookup `m[k]` with the comma-ok result; a `nil` map holds nothing. -/
def GoMap.get? {V : Type} (m : GoMap V) (k : String) : Option V :=
  match m with
  | none => none
  | some f => f k

/-- Assignment `m[k] = v`; `none` is the panic of a write to a `nil` map. -/
def GoMap.assign {V : Type} (m : GoMap V) (k : String) (v : V) : Option (GoMap V) :=
  match m with
  | none => none
  | some f => some (some (fun k' => if k' = k then some v else f k'))

/-- A buffered channel: its capacity and the values waiting in its buffer. -/
structure Chan (α : Type) where
  cap : Nat
  buf : List α
  deriving DecidableEq

/-- What the Go runtime under the program grants to `make`.  A request is
refused when its memory is above the bound; a product of element size and
count that overflows the machine word is above every bound met in practice. -/
structure Runtime where
  /-- The most bytes one allocation is granted: at most `maxAlloc` of the Go
  runtime, less where memory is short. -/
  maxAlloc : Nat
  /-- The bytes of a channel header (`hchanSize`). -/
  hchanSize : Nat
  /-- The bytes of a pointer. -/
  ptrSize : Nat

/-- The bounds of the Go runtime on linux/amd64. -/
def Runtime.amd64 : Runtime :=
  { maxAlloc := 281474976710656, hchanSize := 96, ptrSize := 8 }

/-- The bytes of a `bool`. -/
def boolSize : Nat := 1

/-- The channel of `make(chan T, size)` for elements of `elemSize` bytes;
`none` is the panic "makechan: size out of range", raised on a negative size
and on a buffer of more than `maxAlloc - hchanSize` bytes. -/
def makeChan {α : Type} (rt : Runtime) (elemSize : Nat) (size : Int) : Option (Chan α) :=
  if size < 0 ∨ (rt.maxAlloc : Int) - rt.hchanSize < elemSize * size then none
  else some ⟨size.toNat, []⟩

/-- One send `c <- v` with no receiver waiting: `none` means the sender parks
(a `nil` channel, or a buffer that is full). -/
def chanSend {α : Type} (c : Option (Chan α)) (v : α) : Option (Chan α) :=
  match c with
  | none => none
  | some ch => if ch.buf.length < ch.cap then some ⟨ch.cap, ch.buf ++ [v]⟩ else none

/-- One receive `<-c` that does not wait: the oldest buffered value and the
channel that remains, `none` when nothing is buffered. -/
def chanRecv? {α : Type} (c : Option (Chan α)) : Option (α × Chan α) :=
  match c with
  | some ⟨cap, v :: rest⟩ => some (v, ⟨cap, rest⟩)
  | _ => none

/-- The slice of `make([]T, len)` for elements of `elemSize` bytes, every
entry the zero value `none`; `none` is the panic "makeslice: len out of
range", raised on a negative length and on more than `maxAlloc` bytes. -/
def makeSlice {α : Type} (rt : Runtime) (elemSize : Nat) (len : Int) :
    Option (List (Option α)) :=
  if len < 0 ∨ (rt.maxAlloc : Int) < elemSize * len then none
  else some (List.replicate len.toNat none)

/-- Indexed write `s[i] = v`; `none` is the index-out-of-range panic. -/
def sliceSet {α : Type} (s : List α) (i : Int) (v : α) : Option (List α) :=
  if 0 ≤ i ∧ i < s.length then some (s.set i.toNat v) else none

/-- Indexed read `s[i]`; `none` is the index-out-of-range panic. -/
def sliceGet {α : Type} (s : List α) (i : Int) : Option α :=
  if 0 ≤ i ∧ i < s.length then s.get? i.toNat else none

/-- An integer wrapped to the signed 32-bit range. -/
def wrapInt32 (x : Int) : Int := (x + 2147483648) % 4294967296 - 2147483648

/-- The counter that `wg.Add(delta)` stores: the sum wrapped to 32 bits.  The
call panics with "sync: negative WaitGroup counter" when what it has stored
is negative; the counter keeps the stored value. -/
def wgAdd (counter : Int) (delta : Int) : Int := wrapInt32 (counter + delta)

/-- The panic message of a write to a `nil` map. -/
def nilMapMsg : String := "assignment to entry in nil map"

/-- The panic message of a wait group driven below zero. -/
def negativeCounterMsg : String := "sync: negative WaitGroup counter"

/-! ## Data model -/

/-- Modelled from the spec: the `Worker` type, declared in a file that is not
among the sources.  A worker has an identifying index and a reference to its
owning Master; the owner is the receiver of `Start`, the one Master of a
`World`, so only the index is stored. -/
structure Worker where
  id : Int
  deriving DecidableEq

/-- Modelled from the spec: `NewWorker(m, wid)`, declared in a file that is not
among the sources; it builds the worker with index `wid` owned by `m`. -/
def NewWorker (wid : Int) : Worker := ⟨wid⟩

/-- The struct `Master`.  `H` and `C` stand for the function types `JobHandler`
and `JobCallback`, `J` for `*Job` (declared outside `master.go`). -/
structure Master (H C J : Type) where
  ReserveTimeout : Int
  concurrency : Int
  url : String
  tubes : List String
  workers : List (Option Worker)
  callbacks : GoMap C
  handlers : GoMap H
  timeouts : GoMap Int
  job : Option (Chan J)
  quit : Option (Chan Bool)
  mg : Int
  wg : Int

section Code

variable {H C J : Type}

/-- The zero value of `Master`: every field zero or `nil`. -/
def Master.zero : Master H C J :=
  { ReserveTimeout := 0, concurrency := 0, url := "", tubes := [], workers := [],
    callbacks := none, handlers := none, timeouts := none,
    job := none, quit := none, mg := 0, wg := 0 }

/-- `NewMaster(url, tubes, concurrency)`: the three maps are allocated, the
other fields keep their zero value. -/
def NewMaster (url : String) (tubes : List String) (concurrency : Int) : Master H C J :=
  { (Master.zero : Master H C J) with
    url := url
    tubes := tubes
    concurrency := concurrency
    callbacks := GoMap.make
    handlers := GoMap.make
    timeouts := GoMap.make }

/-- `(*Master).RegisterHandler`: three map assignments in source order.  A
panic leaves the assignments made before it in place. -/
def RegisterHandler (m : Master H C J) (name : String) (hfn : H) (cfn : C) (timeout : Int) :
    Outcome (Master H C J) :=
  match m.handlers.assign name hfn with
  | none => .panicked nilMapMsg m
  | some hs =>
    let m1 := { m with handlers := hs }
    match m1.callbacks.assign name cfn with
    | none => .panicked nilMapMsg m1
    | some cs =>
      let m2 := { m1 with callbacks := cs }
      match m2.timeouts.assign name timeout with
      | none => .panicked nilMapMsg m2
      | some ts => .returned { m2 with timeouts := ts }

/-- One registration request: the arguments of a `RegisterHandler` call. -/
structure Registration (H C : Type) where
  name : String
  handler : H
  callback : C
  timeout : Int

/-- A finite sequence of `RegisterHandler` calls on one Master, first call
first; a panic ends the sequence. -/
def registerAll (m : Master H C J) : List (Registration H C) → Outcome (Master H C J)
  | [] => .returned m
  | r :: rest =>
    match RegisterHandler m r.name r.handler r.callback r.timeout with
    | .returned m1 => registerAll m1 rest
    | .blocked m1 => .blocked m1
    | .panicked msg m1 => .panicked msg m1

/-- The Master together with what its calls do outside the struct: the `run`
goroutines launched by `go` statements, oldest first, and the lines handed to
`log.Info` (format and integer arguments). -/
structure World (H C J : Type) where
  m : Master H C J
  goroutines : List Worker
  logged : List (String × List Int)

/-- A Master on which no life-cycle call has run yet. -/
def World.init (m : Master H C J) : World H C J :=
  { m := m, goroutines := [], logged := [] }

/-- `log.Info(format, args...)`: the line is appended to the log. -/
def logInfo (format : String) (args : List Int) (w : World H C J) : World H C J :=
  { w with logged := w.logged ++ [(format, args)] }

/-- The runtime grants the three allocations of `Start` on concurrency `n`: the
`job` channel of 2 pointers, the `quit` channel of `n` booleans and the pool
of `n` pointers. -/
def Runtime.grantsStart (rt : Runtime) (n : Int) : Prop :=
  (rt.ptrSize : Int) * 2 ≤ (rt.maxAlloc : Int) - rt.hchanSize ∧
  (boolSize : Int) * n ≤ (rt.maxAlloc : Int) - rt.hchanSize ∧
  (rt.ptrSize : Int) * n ≤ (rt.maxAlloc : Int)

/-- The spawn loop of `Start`, `for i := 0; i < m.concurrency; i++`, entered at
index `i` with `remaining` iterations to go (the body changes neither `i` nor
`m.concurrency`, so the loop runs `m.concurrency - i` times).  An iteration
stores `NewWorker(m, i)` at `m.workers[i]` and launches `m.workers[i].run()`. -/
def Start.spawn : (remaining : Nat) → (i : Int) → World H C J → Outcome (World H C J)
  | 0, _, w => .returned w
  | k + 1, i, w =>
    match sliceSet w.m.workers i (some (NewWorker i)) with
    | none => .panicked "index out of range" w
    | some ws =>
      let w1 := { w with m := { w.m with workers := ws } }
      match sliceGet w1.m.workers i with
      | some (some wk) => Start.spawn k (i + 1) { w1 with goroutines := w1.goroutines ++ [wk] }
      | some none => .panicked "nil pointer dereference" w1
      | none => .panicked "index out of range" w1

/-- `(*Master).Start` on the runtime `rt`.  The result pairs the named result
`err` with the world.  `*Job` and `*Worker` are pointers, `bool` is one byte. -/
def Start (rt : Runtime) (w : World H C J) : Outcome (GoError × World H C J) :=
  let err : GoError := none
  let w1 := { w with m := { w.m with mg := wgAdd w.m.mg 1 } }
  if w1.m.mg < 0 then .panicked negativeCounterMsg (err, w1)
  else
    match (makeChan rt rt.ptrSize 2 : Option (Chan J)) with
    | none => .panicked "makechan: size out of range" (err, w1)
    | some jc =>
      let w2 := { w1 with m := { w1.m with job := some jc } }
      match (makeChan rt boolSize w2.m.concurrency : Option (Chan Bool)) with
      | none => .panicked "makechan: size out of range" (err, w2)
      | some qc =>
        let w3 := { w2 with m := { w2.m with quit := some qc } }
        match (makeSlice rt rt.ptrSize w3.m.concurrency : Option (List (Option Worker))) with
        | none => .panicked "makeslice: len out of range" (err, w3)
        | some pool =>
          let w4 := { w3 with m := { w3.m with workers := pool } }
          let w5 := logInfo "master: starting %d workers..." [w4.m.concurrency] w4
          match Start.spawn w5.m.concurrency.toNat 0 w5 with
          | .panicked msg w6 => .panicked msg (err, w6)
          | .blocked w6 => .blocked (err, w6)
          | .returned w6 => .returned (err, logInfo "master: ready" [] w6)

/-- The signalling loop of `Stop`, `for i := 0; i < m.concurrency; i++
{ m.quit <- true }`, with `remaining` iterations to go and no worker receiving
meanwhile.  A send that cannot complete parks the caller. -/
def Stop.signal : (remaining : Nat) → World H C J → Outcome (World H C J)
  | 0, w => .returned w
  | k + 1, w =>
    match chanSend w.m.quit true with
    | none => .blocked w
    | some q => Stop.signal k { w with m := { w.m with quit := some q } }

/-- `(*Master).Stop`, run with no other goroutine acting meanwhile.  The result
pairs the named result `err` with the world. -/
def Stop (w : World H C J) : Outcome (GoError × World H C J) :=
  let err : GoError := none
  let w1 := logInfo "master: stopping %d workers..." [w.m.concurrency] w
  match Stop.signal w1.m.concurrency.toNat w1 with
  | .panicked msg w2 => .panicked msg (err, w2)
  | .blocked w2 => .blocked (err, w2)
  | .returned w2 =>
    if w2.m.wg ≠ 0 then .blocked (err, w2)
    else
      let w3 := logInfo "master: %d workers stopped" [w2.m.concurrency] w2
      let w4 := { w3 with m := { w3.m with mg := wgAdd w3.m.mg (-1) } }
      if w4.m.mg < 0 then .panicked negativeCounterMsg (err, w4)
      else .returned (err, logInfo "master: stopped" [] w4)

/-- `(*Master).Wait`: `m.mg.Wait()` parks the caller while the counter of `mg`
is not zero. -/
def Wait (w : World H C J) : Outcome (World H C J) :=
  if w.m.mg ≠ 0 then .blocked w else .returned w

/-- The last call of a sequence of registrations that names `name`, if any:
the last such call of the tail when there is one, otherwise the head when it
names `name`.  This follows the wording of the specification ("the last one
for that name"), not the code. -/
def lastRegistration (calls : List (Registration H C)) (name : String) :
    Option (Registration H C) :=
  match calls with
  | [] => none
  | r :: rest =>
    match lastRegistration rest name with
    | some r1 => some r1
    | none => if r.name = name then some r else none

/-! ### Stop running beside the worker loops

`Stop` above runs alone.  Below, the body of `Stop` is cut into its atomic
steps so that worker loops can take steps between them. -/

/-- Where the caller of `Stop` stands in the body of `Stop`. -/
inductive StopPc where
  /-- About to log and enter the loop. -/
  | entry
  /-- At the test `i < m.concurrency` of the signalling loop. -/
  | signalling (i : Int)
  /-- At `m.wg.Wait()`. -/
  | waiting
  /-- At `m.mg.Done()`. -/
  | finishing
  /-- Back in the caller. -/
  | returned
  /-- Panicked at `m.mg.Done()`. -/
  | panicked
  deriving DecidableEq

/-- One atomic step of `(*Master).Stop`; `none` when the caller is parked (a
send that cannot complete, or a wait on a counter that is not zero) or has
finished. -/
def stopStep : StopPc → World H C J → Option (StopPc × World H C J)
  | .entry, w =>
    some (.signalling 0, logInfo "master: stopping %d workers..." [w.m.concurrency] w)
  | .signalling i, w =>
    if i < w.m.concurrency then
      match chanSend w.m.quit true with
      | none => none
      | some q => some (.signalling (i + 1), { w with m := { w.m with quit := some q } })
    else some (.waiting, w)
  | .waiting, w =>
    if w.m.wg ≠ 0 then none
    else some (.finishing, logInfo "master: %d workers stopped" [w.m.concurrency] w)
  | .finishing, w =>
    let w1 := { w with m := { w.m with mg := wgAdd w.m.mg (-1) } }
    if w1.m.mg < 0 then some (.panicked, w1)
    else some (.returned, logInfo "master: stopped" [] w1)
  | .returned, _ => none
  | .panicked, _ => none

/-- The caller of `Stop` taking steps alone, at most `fuel` of them, until it
is parked or done: the place and the world it ends in. -/
def stopRun : (fuel : Nat) → StopPc → World H C J → StopPc × World H C J
  | 0, pc, w => (pc, w)
  | k + 1, pc, w =>
    match stopStep pc w with
    | none => (pc, w)
    | some (pc1, w1) => stopRun k pc1 w1

/-- Modelled from the spec: the states of a Worker loop (the loop itself,
`run`, is in a file that is not among the sources).  Section 4.2 gives the
state machine Idle, Reserving, Dispatching, back to Idle, with the exit
Idle to Stopped. -/
inductive WorkerState where
  | idle
  | reserving
  | dispatching
  | stopped
  deriving DecidableEq

/-- The pool at run time: the world of the Master, the place of the caller of
`Stop`, the state of every launched worker loop, the number of worker-exit
events so far, and whether a panic has ended the process. -/
structure Pool (H C J : Type) where
  world : World H C J
  stop : StopPc
  loops : List WorkerState
  exits : Nat
  crashed : Bool

/-- Modelled from the spec: `k` started workers taking their slots of the
worker barrier, one `Add(1)` each, from the counter `c`: the counter reached,
and whether an `Add` panicked (the slots after it are not taken). -/
def takeSlots : Nat → Int → Int × Bool
  | 0, c => (c, false)
  | k + 1, c => if wgAdd c 1 < 0 then (wgAdd c 1, true) else takeSlots k (wgAdd c 1)

/-- Modelled from the spec: what the `go m.workers[i].run()` statements of
`Start` set running (`run` is in a file that is not among the sources).  Every
launched goroutine is a live worker loop, Idle, and the worker barrier `wg`
tracks the live workers: each holds one slot of it from the moment it is
started inside `Start` until it exits (a slot that the 32-bit counter cannot
take is a panic that ends the process).  The caller is about to enter `Stop`. -/
def Pool.launch (w : World H C J) : Pool H C J :=
  { world := { w with m := { w.m with wg := (takeSlots w.goroutines.length w.m.wg).1 } }
    stop := .entry
    loops := w.goroutines.map (fun _ => WorkerState.idle)
    exits := 0
    crashed := (takeSlots w.goroutines.length w.m.wg).2 }

/-- Modelled from the spec: one step of worker loop `j` (section 4.2).  Idle,
it checks the quit channel first: a signal is consumed, the loop returns and
releases its slot of `wg` (one worker-exit event; a release that stores a
negative counter panics and ends the process); with no signal it goes on to
reserve a job.  A reservation ends with a job (`gotJob`) or with the
reservation timeout, which sends the loop back to Idle; after dispatching a
job the loop is Idle again.  A stopped loop takes no step. -/
def workerStep (p : Pool H C J) (j : Nat) (gotJob : Bool) : Option (Pool H C J) :=
  match p.loops[j]? with
  | some .idle =>
    match chanRecv? p.world.m.quit with
    | some (_, q) =>
      let w1 := { p.world with
                  m := { p.world.m with quit := some q, wg := wgAdd p.world.m.wg (-1) } }
      if w1.m.wg < 0 then some { p with world := w1, crashed := true }
      else some { p with world := w1, loops := p.loops.set j .stopped, exits := p.exits + 1 }
    | none => some { p with loops := p.loops.set j .reserving }
  | some .reserving =>
    some { p with loops := p.loops.set j (if gotJob then .dispatching else .idle) }
  | some .dispatching => some { p with loops := p.loops.set j .idle }
  | some .stopped => none
  | none => none

/-- A choice of the scheduler: let the caller of `Stop` take a step, or let
worker loop `j` take one (with the result of its reservation, if it is
reserving). -/
inductive Action where
  | stop
  | worker (j : Nat) (gotJob : Bool)
  deriving DecidableEq

/-- One step of the pool; `none` when the chosen goroutine cannot move or the
process has ended in a panic. -/
def Pool.step (p : Pool H C J) (a : Action) : Option (Pool H C J) :=
  if p.crashed then none
  else
    match a with
    | .stop =>
      match stopStep p.stop p.world with
      | none => none
      | some (.panicked, w) => some { p with stop := .panicked, world := w, crashed := true }
      | some (pc, w) => some { p with stop := pc, world := w }
    | .worker j gotJob => workerStep p j gotJob

/-- The pool after a schedule, `none` when the schedule asks for a step that
cannot be taken. -/
def Pool.run (p : Pool H C J) : List Action → Option (Pool H C J)
  | [] => some p
  | a :: rest =>
    match p.step a with
    | none => none
    | some p1 => Pool.run p1 rest

/-- The schedule of an orderly shutdown of `n` workers: the caller of `Stop`
logs, sends its `n` signals and leaves the loop; each worker in turn finds a
signal and exits; the caller passes the barrier and finishes. -/
def Pool.shutdown (n : Nat) : List Action :=
  List.replicate (n + 2) Action.stop ++
    ((List.range' 0 n).map (fun j => Action.worker j false) ++ [Action.stop, Action.stop])

/-- The invariant of a running pool: the worker barrier counts the live
loops, which are fewer than the 32-bit barrier can count, the exit events
count the stopped ones, the caller of `Stop` is past `m.wg.Wait()` only with
the barrier at zero, and only a panic of `Stop` ends the process. -/
def Pool.Inv (p : Pool H C J) : Prop :=
  p.world.m.wg + p.exits = p.loops.length ∧ p.loops.length < 2147483648 ∧
  p.exits = p.loops.count WorkerState.stopped ∧
  ((p.stop = .finishing ∨ p.stop = .returned) → p.world.m.wg = 0) ∧
  (p.crashed = true → p.stop = .panicked)

end Code


/-! ## The registry -/

section Registry

variable {H C J : Type}

theorem GoMap.get?_assign {V : Type} (f : String → Option V) (k k' : String) (v : V) :
    GoMap.get? (some (fun x => if x = k then some v else f x)) k'
      = if k' = k then some v else f k' := rfl

/-- On allocated maps `RegisterHandler` returns, and its result is the Master
with the three entries for `name` replaced. -/
theorem RegisterHandler_allocated (m : Master H C J) (name : String) (h : H) (c : C) (t : Int)
    (fh : String → Option H) (fc : String → Option C) (ft : String → Option Int)
    (hh : m.handlers = some fh) (hc : m.callbacks = some fc) (ht : m.timeouts = some ft) :
    RegisterHandler m name h c t = .returned
      { m with
        handlers := some (fun k => if k = name then some h else fh k)
        callbacks := some (fun k => if k = name then some c else fc k)
        timeouts := some (fun k => if k = name then some t else ft k) } := by
  simp [RegisterHandler, GoMap.assign, hh, hc, ht]

/-- Whatever its outcome, `RegisterHandler` leaves every field but the three
maps alone, and in the maps every entry but the one for `name`. -/
theorem RegisterHandler_state_frame (m : Master H C J) (name : String) (h : H) (c : C) (t : Int) :
    (∀ k, k ≠ name →
      (RegisterHandler m name h c t).state.handlers.get? k = m.handlers.get? k ∧
      (RegisterHandler m name h c t).state.callbacks.get? k = m.callbacks.get? k ∧
      (RegisterHandler m name h c t).state.timeouts.get? k = m.timeouts.get? k) ∧
    (RegisterHandler m name h c t).state.concurrency = m.concurrency ∧
    (RegisterHandler m name h c t).state.url = m.url ∧
    (RegisterHandler m name h c t).state.tubes = m.tubes ∧
    (RegisterHandler m name h c t).state.ReserveTimeout = m.ReserveTimeout ∧
    (RegisterHandler m name h c t).state.workers = m.workers ∧
    (RegisterHandler m name h c t).state.job = m.job ∧
    (RegisterHandler m name h c t).state.quit = m.quit ∧
    (RegisterHandler m name h c t).state.mg = m.mg ∧
    (RegisterHandler m name h c t).state.wg = m.wg := by
  obtain ⟨rt, conc, url, tubes, workers, cbs, hs, ts, job, quit, mg, wg⟩ := m
  cases hs <;> cases cbs <;> cases ts <;>
    simp [RegisterHandler, GoMap.assign, GoMap.get?, Outcome.state] <;>
    intro k hk <;> simp [hk]

/-- A sequence of registrations on allocated maps returns; the maps stay
allocated, each lookup is decided by the last call for the name, and the other
fields are those of the Master the sequence started from. -/
theorem registerAll_allocated (calls : List (Registration H C)) :
    ∀ (m : Master H C J), m.handlers ≠ none → m.callbacks ≠ none → m.timeouts ≠ none →
    ∃ m', registerAll m calls = .returned m' ∧
      m'.handlers ≠ none ∧ m'.callbacks ≠ none ∧ m'.timeouts ≠ none ∧
      (∀ k, m'.handlers.get? k =
        match lastRegistration calls k with
        | some r => some r.handler
        | none => m.handlers.get? k) ∧
      (∀ k, m'.callbacks.get? k =
        match lastRegistration calls k with
        | some r => some r.callback
        | none => m.callbacks.get? k) ∧
      (∀ k, m'.timeouts.get? k =
        match lastRegistration calls k with
        | some r => some r.timeout
        | none => m.timeouts.get? k) ∧
      m'.concurrency = m.concurrency ∧ m'.url = m.url ∧ m'.tubes = m.tubes ∧
      m'.ReserveTimeout = m.ReserveTimeout ∧ m'.workers = m.workers ∧
      m'.job = m.job ∧ m'.quit = m.quit ∧ m'.mg = m.mg ∧ m'.wg = m.wg := by
  induction calls with
  | nil =>
    intro m hh hc ht
    exact ⟨m, rfl, hh, hc, ht, by simp [lastRegistration]⟩
  | cons r rest ih =>
    intro m hh hc ht
    obtain ⟨fh, hfh⟩ := Option.ne_none_iff_exists'.mp hh
    obtain ⟨fc, hfc⟩ := Option.ne_none_iff_exists'.mp hc
    obtain ⟨ft, hft⟩ := Option.ne_none_iff_exists'.mp ht
    have hstep := RegisterHandler_allocated m r.name r.handler r.callback r.timeout fh fc ft
      hfh hfc hft
    obtain ⟨m', hrun, hh', hc', ht', hH, hC, hT, rest'⟩ :=
      ih { m with
           handlers := some (fun k => if k = r.name then some r.handler else fh k)
           callbacks := some (fun k => if k = r.name then some r.callback else fc k)
           timeouts := some (fun k => if k = r.name then some r.timeout else ft k) }
        (by simp) (by simp) (by simp)
    refine ⟨m', ?_, hh', hc', ht', ?_, ?_, ?_, rest'⟩
    · simp only [registerAll, hstep]; exact hrun
    · intro k
      rw [hH k]; simp only [lastRegistration]
      cases lastRegistration rest k with
      | some r1 => rfl
      | none =>
        simp only [GoMap.get?_assign]
        by_cases hk : k = r.name
        · simp [hk]
        · have hk' : ¬ r.name = k := fun e => hk e.symm
          simp [hk, hk', hfh, GoMap.get?]
    · intro k
      rw [hC k]; simp only [lastRegistration]
      cases lastRegistration rest k with
      | some r1 => rfl
      | none =>
        simp only [GoMap.get?_assign]
        by_cases hk : k = r.name
        · simp [hk]
        · have hk' : ¬ r.name = k := fun e => hk e.symm
          simp [hk, hk', hfc, GoMap.get?]
    · intro k
      rw [hT k]; simp only [lastRegistration]
      cases lastRegistration rest k with
      | some r1 => rfl
      | none =>
        simp only [GoMap.get?_assign]
        by_cases hk : k = r.name
        · simp [hk]
        · have hk' : ¬ r.name = k := fun e => hk e.symm
          simp [hk, hk', hft, GoMap.get?]

/-- C1 (as stated, refuted): it is not true that `RegisterHandler` returns on
every Master.  On the zero value of `Master`, whose maps are `nil`, the first
assignment panics and nothing is recorded. -/
theorem RegisterHandler_on_zero_Master_panics :
    ¬ ∀ (m : Master Nat Nat Nat) (name : String) (h c : Nat) (t : Int),
        ∃ m', RegisterHandler m name h c t = .returned m' ∧
          m'.handlers.get? name = some h ∧ m'.callbacks.get? name = some c ∧
          m'.timeouts.get? name = some t := by
  intro hall
  obtain ⟨m', hret, _⟩ := hall Master.zero "job" 1 2 3
  simp [RegisterHandler, Master.zero, GoMap.assign] at hret

/-- C1 (amended): on every Master whose three maps are allocated, for every
name (the empty one and an already registered one included), handler,
callback and timeout, `RegisterHandler` returns, and afterwards the lookups of
the name give exactly that handler, that callback and that timeout, whatever
was registered before. -/
theorem RegisterHandler_records_triple (m : Master H C J) (name : String) (h : H) (c : C)
    (t : Int) (hh : m.handlers ≠ none) (hc : m.callbacks ≠ none) (ht : m.timeouts ≠ none) :
    ∃ m', RegisterHandler m name h c t = .returned m' ∧
      m'.handlers.get? name = some h ∧ m'.callbacks.get? name = some c ∧
      m'.timeouts.get? name = some t := by
  obtain ⟨fh, hfh⟩ := Option.ne_none_iff_exists'.mp hh
  obtain ⟨fc, hfc⟩ := Option.ne_none_iff_exists'.mp hc
  obtain ⟨ft, hft⟩ := Option.ne_none_iff_exists'.mp ht
  exact ⟨_, RegisterHandler_allocated m name h c t fh fc ft hfh hfc hft,
    by simp [GoMap.get?], by simp [GoMap.get?], by simp [GoMap.get?]⟩

/-- Witness of C1 (amended): registering the empty name on a new Master. -/
theorem RegisterHandler_records_triple_witness :
    ∃ m', RegisterHandler (NewMaster "localhost:11300" ["default"] 2 : Master Nat Nat Nat)
        "" 7 8 9 = .returned m' ∧
      m'.handlers.get? "" = some 7 ∧ m'.callbacks.get? "" = some 8 ∧
      m'.timeouts.get? "" = some 9 :=
  RegisterHandler_records_triple (NewMaster "localhost:11300" ["default"] 2) "" 7 8 9
    (by simp [NewMaster, GoMap.make]) (by simp [NewMaster, GoMap.make])
    (by simp [NewMaster, GoMap.make])

/-- C2: on a Master obtained from `NewMaster` by any finite sequence of
`RegisterHandler` calls, the three maps have the same keys, and for every name
the handler, callback and timeout found are the arguments of one call, the last
one for that name (nothing is found when no call named it). -/
theorem registry_entries_come_from_one_registration (url : String) (tubes : List String)
    (n : Int) (calls : List (Registration H C)) :
    ∃ m', registerAll (NewMaster url tubes n : Master H C J) calls = .returned m' ∧
      (∀ k, (m'.handlers.get? k).isSome = (m'.callbacks.get? k).isSome ∧
        (m'.callbacks.get? k).isSome = (m'.timeouts.get? k).isSome) ∧
      (∀ k,
        match lastRegistration calls k with
        | some r =>
          m'.handlers.get? k = some r.handler ∧ m'.callbacks.get? k = some r.callback ∧
            m'.timeouts.get? k = some r.timeout
        | none =>
          m'.handlers.get? k = none ∧ m'.callbacks.get? k = none ∧
            m'.timeouts.get? k = none) := by
  obtain ⟨m', hrun, _, _, _, hH, hC, hT, _⟩ :=
    registerAll_allocated calls (NewMaster url tubes n : Master H C J)
      (by simp [NewMaster, GoMap.make]) (by simp [NewMaster, GoMap.make])
      (by simp [NewMaster, GoMap.make])
  refine ⟨m', hrun, ?_, ?_⟩
  · intro k
    rw [hH k, hC k, hT k]
    cases lastRegistration calls k <;> simp [NewMaster, GoMap.make, GoMap.get?]
  · intro k
    rw [hH k, hC k, hT k]
    cases lastRegistration calls k <;> simp [NewMaster, GoMap.make, GoMap.get?]

/-- C10: `RegisterHandler(name, h, c, t)` changes nothing but the registry
entry for `name`: the lookups of every other name are as before, and so are
the concurrency, url, tubes, ReserveTimeout and workers pool; and after any
sequence of `RegisterHandler` calls on a Master from `NewMaster` the
concurrency is the one given to `NewMaster`. -/
theorem RegisterHandler_changes_only_its_entry :
    (∀ (m : Master H C J) (name : String) (h : H) (c : C) (t : Int),
      (∀ k, k ≠ name →
        (RegisterHandler m name h c t).state.handlers.get? k = m.handlers.get? k ∧
        (RegisterHandler m name h c t).state.callbacks.get? k = m.callbacks.get? k ∧
        (RegisterHandler m name h c t).state.timeouts.get? k = m.timeouts.get? k) ∧
      (RegisterHandler m name h c t).state.concurrency = m.concurrency ∧
      (RegisterHandler m name h c t).state.url = m.url ∧
      (RegisterHandler m name h c t).state.tubes = m.tubes ∧
      (RegisterHandler m name h c t).state.ReserveTimeout = m.ReserveTimeout ∧
      (RegisterHandler m name h c t).state.workers = m.workers) ∧
    (∀ (url : String) (tubes : List String) (n : Int) (calls : List (Registration H C)),
      ∃ m', registerAll (NewMaster url tubes n : Master H C J) calls = .returned m' ∧
        m'.concurrency = n) := by
  constructor
  · intro m name h c t
    obtain ⟨h1, h2, h3, h4, h5, h6, _⟩ := RegisterHandler_state_frame m name h c t
    exact ⟨h1, h2, h3, h4, h5, h6⟩
  · intro url tubes n calls
    obtain ⟨m', hrun, _, _, _, _, _, _, hconc, _⟩ :=
      registerAll_allocated calls (NewMaster url tubes n : Master H C J)
        (by simp [NewMaster, GoMap.make]) (by simp [NewMaster, GoMap.make])
        (by simp [NewMaster, GoMap.make])
    exact ⟨m', hrun, by rw [hconc]; rfl⟩

/-- Witness of C10: registering "resize" on a Master that holds "email" leaves
the entry of "email" as it was. -/
theorem RegisterHandler_changes_only_its_entry_witness :
    (RegisterHandler
        (RegisterHandler (NewMaster "localhost:11300" ["default"] 2 : Master Nat Nat Nat)
          "email" 1 2 30).state "resize" 4 5 60).state.handlers.get? "email" = some 1 := by
  have hframe := ((RegisterHandler_changes_only_its_entry (H := Nat) (C := Nat) (J := Nat)).1
    (RegisterHandler (NewMaster "localhost:11300" ["default"] 2 : Master Nat Nat Nat)
      "email" 1 2 30).state "resize" 4 5 60).1 "email" (by decide)
  rw [hframe.1]
  rfl

end Registry

/-! ## Start -/

section Lifecycle

variable {H C J : Type}

/-- The spawn loop entered at index `i` with `k` iterations to go, on a pool
long enough for them: it returns, the pool keeps its length, the entries
`i .. i + k - 1` hold the new workers, the other entries are untouched, and one
goroutine per new worker has been launched, in index order. -/
theorem Start.spawn_returns (k : Nat) :
    ∀ (i : Nat) (w : World H C J), i + k ≤ w.m.workers.length →
    ∃ ws, Start.spawn k (i : Int) w = .returned
        { w with
          m := { w.m with workers := ws }
          goroutines := w.goroutines ++ (List.range' i k).map (fun (j : Nat) => NewWorker (j : Int)) } ∧
      ws.length = w.m.workers.length ∧
      ∀ j, ws[j]? = if i ≤ j ∧ j < i + k then some (some (NewWorker (j : Int)))
                    else w.m.workers[j]? := by
  induction k with
  | zero =>
    intro i w _
    refine ⟨w.m.workers, ?_, rfl, ?_⟩
    · simp [Start.spawn]
    · intro j
      rw [if_neg (by omega)]
  | succ k ih =>
    intro i w hlen
    have hi : i < w.m.workers.length := by omega
    have hset : sliceSet w.m.workers (i : Int) (some (NewWorker (i : Int)))
        = some (w.m.workers.set i (some (NewWorker (i : Int)))) := by
      simp [sliceSet, hi]
    have hget : sliceGet (w.m.workers.set i (some (NewWorker (i : Int)))) (i : Int)
        = some (some (NewWorker (i : Int))) := by
      simp [sliceGet, hi]
    obtain ⟨ws, hrun, hwslen, hws⟩ := ih (i + 1)
      { w with
        m := { w.m with workers := w.m.workers.set i (some (NewWorker (i : Int))) }
        goroutines := w.goroutines ++ [NewWorker (i : Int)] }
      (by simp; omega)
    refine ⟨ws, ?_, ?_, ?_⟩
    · simp only [Start.spawn, hset, hget]
      have hcast : ((i : Int) + 1) = ((i + 1 : Nat) : Int) := by push_cast; rfl
      rw [hcast, hrun]
      simp [List.range'_succ]
    · simpa using hwslen
    · intro j
      rw [hws j]
      by_cases hj : j = i
      · subst hj
        have h1 : ¬ (j + 1 ≤ j ∧ j < j + 1 + k) := by omega
        have h2 : (j ≤ j ∧ j < j + (k + 1)) := by omega
        simp [h1, h2, hi]
      · by_cases hin : i + 1 ≤ j ∧ j < i + 1 + k
        · have h2 : (i ≤ j ∧ j < i + (k + 1)) := by omega
          simp [hin, h2]
        · have h2 : ¬ (i ≤ j ∧ j < i + (k + 1)) := by omega
          have hne : ¬ i = j := fun e => hj e.symm
          simp [hin, h2, List.getElem?_set, hne]

/-- A sum inside the 32-bit range is stored as it is. -/
theorem wgAdd_eq (c d : Int) (h1 : -2147483648 ≤ c + d) (h2 : c + d < 2147483648) :
    wgAdd c d = c + d := by
  unfold wgAdd wrapInt32
  omega

/-- What `Add` stores is a 32-bit value. -/
theorem wgAdd_range (c d : Int) : -2147483648 ≤ wgAdd c d ∧ wgAdd c d < 2147483648 := by
  unfold wgAdd wrapInt32
  omega

/-- The counters the life cycle meets: one step up or down from a small
counter is the plain sum. -/
theorem wgAdd_small (c d : Int) (hc : -1000 ≤ c ∧ c ≤ 1000) (hd : d = 1 ∨ d = -1) :
    wgAdd c d = c + d := by
  apply wgAdd_eq <;> omega

/-- `Add(1)` on a counter from 0 up to 2147483646 stores a non-negative
counter: it does not panic. -/
theorem wgAdd_one_nonneg (c : Int) (h0 : 0 ≤ c) (h1 : c < 2147483647) : 0 ≤ wgAdd c 1 := by
  rw [wgAdd_eq c 1 (by omega) (by omega)]
  omega

/-- `make` grants a channel whose size is not negative and whose buffer is
within the bound. -/
theorem makeChan_granted {α : Type} (rt : Runtime) (e : Nat) (size : Int) (h0 : 0 ≤ size)
    (h : (e : Int) * size ≤ (rt.maxAlloc : Int) - rt.hchanSize) :
    (makeChan rt e size : Option (Chan α)) = some ⟨size.toNat, []⟩ := by
  have : ¬ (size < 0 ∨ (rt.maxAlloc : Int) - rt.hchanSize < e * size) := by omega
  simp only [makeChan, this, if_false]

/-- `make` refuses a channel of negative size or with a buffer above the
bound. -/
theorem makeChan_refused {α : Type} (rt : Runtime) (e : Nat) (size : Int)
    (h : size < 0 ∨ (rt.maxAlloc : Int) - rt.hchanSize < e * size) :
    (makeChan rt e size : Option (Chan α)) = none := by
  simp only [makeChan, h, if_true]

/-- `make` grants a slice whose length is not negative and whose memory is
within the bound. -/
theorem makeSlice_granted {α : Type} (rt : Runtime) (e : Nat) (len : Int) (h0 : 0 ≤ len)
    (h : (e : Int) * len ≤ (rt.maxAlloc : Int)) :
    (makeSlice rt e len : Option (List (Option α))) = some (List.replicate len.toNat none) := by
  have : ¬ (len < 0 ∨ (rt.maxAlloc : Int) < e * len) := by omega
  simp only [makeSlice, this, if_false]

/-- `make` refuses a slice of negative length or with memory above the
bound. -/
theorem makeSlice_refused {α : Type} (rt : Runtime) (e : Nat) (len : Int)
    (h : len < 0 ∨ (rt.maxAlloc : Int) < e * len) :
    (makeSlice rt e len : Option (List (Option α))) = none := by
  simp only [makeSlice, h, if_true]

/-- When `mg.Add(1)` leaves the counter non-negative and the runtime grants
the three allocations of a non-negative concurrency, `Start` returns a `nil`
error.  The world it leaves: `mg` one step on, a fresh `job` channel of
capacity 2, a fresh empty `quit` channel of capacity `concurrency`, a fresh
pool of `concurrency` workers, one more goroutine per worker, and two more
log lines. -/
theorem Start_returns (rt : Runtime) (w : World H C J) (hn : 0 ≤ w.m.concurrency)
    (hmg : 0 ≤ wgAdd w.m.mg 1) (hgrant : rt.grantsStart w.m.concurrency) :
    ∃ ws, Start rt w = .returned (none,
        { m := { w.m with
                 mg := wgAdd w.m.mg 1
                 job := some ⟨2, []⟩
                 quit := some ⟨w.m.concurrency.toNat, []⟩
                 workers := ws }
          goroutines := w.goroutines ++
            (List.range w.m.concurrency.toNat).map (fun (j : Nat) => NewWorker (j : Int))
          logged := w.logged ++ [("master: starting %d workers...", [w.m.concurrency]),
            ("master: ready", [])] }) ∧
      ws.length = w.m.concurrency.toNat ∧
      ∀ j, j < w.m.concurrency.toNat → ws[j]? = some (some (NewWorker (j : Int))) := by
  obtain ⟨hg1, hg2, hg3⟩ := hgrant
  have hmg' : ¬ wgAdd w.m.mg 1 < 0 := by omega
  have hj : (makeChan rt rt.ptrSize 2 : Option (Chan J)) = some ⟨2, []⟩ :=
    makeChan_granted rt rt.ptrSize 2 (by decide) hg1
  have hq : (makeChan rt boolSize w.m.concurrency : Option (Chan Bool))
      = some ⟨w.m.concurrency.toNat, []⟩ := makeChan_granted rt boolSize _ hn hg2
  have hp : (makeSlice rt rt.ptrSize w.m.concurrency : Option (List (Option Worker)))
      = some (List.replicate w.m.concurrency.toNat none) :=
    makeSlice_granted rt rt.ptrSize _ hn hg3
  obtain ⟨ws, hrun, hlen, hws⟩ := Start.spawn_returns w.m.concurrency.toNat 0
    (logInfo "master: starting %d workers..." [w.m.concurrency]
      { w with m := { w.m with
                      mg := wgAdd w.m.mg 1
                      job := some ⟨2, []⟩
                      quit := some ⟨w.m.concurrency.toNat, []⟩
                      workers := List.replicate w.m.concurrency.toNat none } })
    (by simp [logInfo])
  refine ⟨ws, ?_, ?_, ?_⟩
  · simp only [Nat.cast_zero, logInfo] at hrun
    simp only [Start, hmg', if_false, hj, hq, hp, logInfo]
    rw [hrun]
    simp [List.range_eq_range']
  · simpa [logInfo] using hlen
  · intro j hj
    rw [hws j]
    simp [hj]

/-- The ways `Start` panics before its loop: `mg.Add(1)` stores a negative
counter, or `make` refuses one of the three sizes. -/
theorem Start_panics (rt : Runtime) (w : World H C J) :
    (wgAdd w.m.mg 1 < 0 → ∃ s, Start rt w = .panicked negativeCounterMsg s) ∧
    (0 ≤ wgAdd w.m.mg 1 → (rt.maxAlloc : Int) - rt.hchanSize < (rt.ptrSize : Int) * 2 →
      ∃ s, Start rt w = .panicked "makechan: size out of range" s) ∧
    (0 ≤ wgAdd w.m.mg 1 → (rt.ptrSize : Int) * 2 ≤ (rt.maxAlloc : Int) - rt.hchanSize →
      (w.m.concurrency < 0 ∨
        (rt.maxAlloc : Int) - rt.hchanSize < (boolSize : Int) * w.m.concurrency) →
      ∃ s, Start rt w = .panicked "makechan: size out of range" s) ∧
    (0 ≤ wgAdd w.m.mg 1 → (rt.ptrSize : Int) * 2 ≤ (rt.maxAlloc : Int) - rt.hchanSize →
      0 ≤ w.m.concurrency →
      (boolSize : Int) * w.m.concurrency ≤ (rt.maxAlloc : Int) - rt.hchanSize →
      (rt.maxAlloc : Int) < (rt.ptrSize : Int) * w.m.concurrency →
      ∃ s, Start rt w = .panicked "makeslice: len out of range" s) := by
  refine ⟨?_, ?_, ?_, ?_⟩
  · intro h
    exact ⟨(none, { w with m := { w.m with mg := wgAdd w.m.mg 1 } }),
      by simp only [Start, h, if_true]⟩
  · intro h0 h1
    have hmg' : ¬ wgAdd w.m.mg 1 < 0 := by omega
    have hj : (makeChan rt rt.ptrSize 2 : Option (Chan J)) = none :=
      makeChan_refused rt rt.ptrSize 2 (Or.inr h1)
    simp only [Start, hmg', if_false, hj]
    exact ⟨_, rfl⟩
  · intro h0 h1 h2
    have hmg' : ¬ wgAdd w.m.mg 1 < 0 := by omega
    have hj : (makeChan rt rt.ptrSize 2 : Option (Chan J)) = some ⟨2, []⟩ :=
      makeChan_granted rt rt.ptrSize 2 (by decide) h1
    have hq : (makeChan rt boolSize w.m.concurrency : Option (Chan Bool)) = none :=
      makeChan_refused rt boolSize _ h2
    simp only [Start, hmg', if_false, hj, hq]
    exact ⟨_, rfl⟩
  · intro h0 h1 hn h2 h3
    have hmg' : ¬ wgAdd w.m.mg 1 < 0 := by omega
    have hj : (makeChan rt rt.ptrSize 2 : Option (Chan J)) = some ⟨2, []⟩ :=
      makeChan_granted rt rt.ptrSize 2 (by decide) h1
    have hq : (makeChan rt boolSize w.m.concurrency : Option (Chan Bool))
        = some ⟨w.m.concurrency.toNat, []⟩ := makeChan_granted rt boolSize _ hn h2
    have hp : (makeSlice rt rt.ptrSize w.m.concurrency : Option (List (Option Worker)))
        = none := makeSlice_refused rt rt.ptrSize _ (Or.inr h3)
    simp only [Start, hmg', if_false, hj, hq, hp]
    exact ⟨_, rfl⟩

/-- A call of `Start` that returns was made with a non-negative concurrency
that the runtime grants, and left the counter of `mg` non-negative. -/
theorem Start_returned_granted (rt : Runtime) (w : World H C J)
    (r : GoError × World H C J) (h : Start rt w = .returned r) :
    0 ≤ w.m.concurrency ∧ 0 ≤ wgAdd w.m.mg 1 ∧ rt.grantsStart w.m.concurrency := by
  obtain ⟨p1, p2, p3, p4⟩ := Start_panics rt w
  have hmg : 0 ≤ wgAdd w.m.mg 1 := by
    by_contra hc
    obtain ⟨s, hs⟩ := p1 (by omega)
    rw [hs] at h
    cases h
  have hg1 : (rt.ptrSize : Int) * 2 ≤ (rt.maxAlloc : Int) - rt.hchanSize := by
    by_contra hc
    obtain ⟨s, hs⟩ := p2 hmg (by omega)
    rw [hs] at h
    cases h
  have hq : 0 ≤ w.m.concurrency ∧
      (boolSize : Int) * w.m.concurrency ≤ (rt.maxAlloc : Int) - rt.hchanSize := by
    by_contra hc
    obtain ⟨s, hs⟩ := p3 hmg hg1 (by omega)
    rw [hs] at h
    cases h
  have hg3 : (rt.ptrSize : Int) * w.m.concurrency ≤ (rt.maxAlloc : Int) := by
    by_contra hc
    obtain ⟨s, hs⟩ := p4 hmg hg1 hq.1 hq.2 (by omega)
    rw [hs] at h
    cases h
  exact ⟨hq.1, hmg, hg1, hq.2, hg3⟩

/-- What a `Start` that returned leaves in the fields the life cycle reads. -/
theorem Start_returned_fields (rt : Runtime) (w w1 : World H C J) (e : GoError)
    (hstart : Start rt w = .returned (e, w1)) :
    e = none ∧ 0 ≤ w.m.concurrency ∧ w1.m.concurrency = w.m.concurrency ∧
    w1.m.mg = wgAdd w.m.mg 1 ∧ 0 ≤ w1.m.mg ∧ w1.m.wg = w.m.wg ∧
    w1.m.quit = some ⟨w.m.concurrency.toNat, []⟩ ∧
    w1.m.workers.length = w.m.concurrency.toNat ∧
    (∀ j, j < w.m.concurrency.toNat → w1.m.workers[j]? = some (some (NewWorker (j : Int)))) ∧
    w1.goroutines = w.goroutines ++
      (List.range w.m.concurrency.toNat).map (fun (j : Nat) => NewWorker (j : Int)) := by
  obtain ⟨hn, hmg, hgrant⟩ := Start_returned_granted rt w _ hstart
  obtain ⟨ws, hrun, hlen, hws⟩ := Start_returns rt w hn hmg hgrant
  rw [hrun] at hstart
  injection hstart with hstart
  injection hstart with he hw1
  subst hw1
  exact ⟨he.symm, hn, rfl, rfl, hmg, rfl, rfl, hlen, hws, rfl⟩

/-- C3 (as stated, refuted): with concurrency `n ≥ 1`, `Start` need not spawn
`n` worker loops.  For `n = 9223372036854775807` on linux/amd64 the `make` of
the `quit` channel panics, and `Start` ends with an empty pool and no
goroutine launched. -/
theorem Start_on_huge_concurrency_spawns_nothing :
    (1 : Int) ≤ (World.init (NewMaster "localhost:11300" ["default"] 9223372036854775807 :
      Master Nat Nat Nat)).m.concurrency ∧
    (Start Runtime.amd64 (World.init
      (NewMaster "localhost:11300" ["default"] 9223372036854775807 : Master Nat Nat Nat))
      ).isReturned = false ∧
    (Start Runtime.amd64 (World.init
      (NewMaster "localhost:11300" ["default"] 9223372036854775807 : Master Nat Nat Nat))
      ).state.2.m.workers = [] ∧
    (Start Runtime.amd64 (World.init
      (NewMaster "localhost:11300" ["default"] 9223372036854775807 : Master Nat Nat Nat))
      ).state.2.goroutines = [] := by
  refine ⟨by decide, ?_, ?_, ?_⟩ <;>
    simp [Start, World.init, NewMaster, Master.zero, makeChan, boolSize, Runtime.amd64,
      wgAdd, wrapInt32, Outcome.isReturned, Outcome.state]

/-- C3 (amended): on a Master with concurrency `n ≥ 1`, a call of `Start` that
returns has spawned exactly `n` worker loops: the pool has length `n`, its
`i`-th entry is the worker made by `NewWorker(m, i)`, and the goroutines
launched by the call are the `run` of those `n` workers, one each and nothing
else.  The call does return when `mg.Add(1)` leaves the counter of `mg`
non-negative and the runtime grants the three allocations. -/
theorem Start_spawns_concurrency_workers (rt : Runtime) (w : World H C J)
    (hn : 1 ≤ w.m.concurrency) :
    (∀ (e : GoError) (w1 : World H C J), Start rt w = .returned (e, w1) →
      (w1.m.workers.length : Int) = w.m.concurrency ∧
      (∀ i : Nat, (i : Int) < w.m.concurrency →
        w1.m.workers[i]? = some (some (NewWorker (i : Int)))) ∧
      w1.goroutines = w.goroutines ++
        (List.range w.m.concurrency.toNat).map (fun (i : Nat) => NewWorker (i : Int)) ∧
      (w1.goroutines.length : Int) = w.goroutines.length + w.m.concurrency) ∧
    (0 ≤ wgAdd w.m.mg 1 → rt.grantsStart w.m.concurrency →
      ∃ e w1, Start rt w = .returned (e, w1)) := by
  constructor
  · intro e w1 hstart
    obtain ⟨_, _, _, _, _, _, _, hlen, hws, hgo⟩ := Start_returned_fields rt w w1 e hstart
    refine ⟨?_, ?_, hgo, ?_⟩
    · rw [hlen]; omega
    · intro i hi
      exact hws i (by omega)
    · rw [hgo]
      simp only [List.length_append, List.length_map, List.length_range]
      omega
  · intro hmg hgrant
    obtain ⟨ws, hrun, _, _⟩ := Start_returns rt w (by omega) hmg hgrant
    exact ⟨_, _, hrun⟩

/-- Witness of C3 (amended): a new Master with concurrency 3 on linux/amd64. -/
theorem Start_spawns_concurrency_workers_witness :
    (Start Runtime.amd64 (World.init
      (NewMaster "localhost:11300" ["default"] 3 : Master Nat Nat Nat))).isReturned = true ∧
    (Start Runtime.amd64 (World.init
      (NewMaster "localhost:11300" ["default"] 3 : Master Nat Nat Nat))).state.2.goroutines
      = [] ++ (List.range 3).map (fun (i : Nat) => NewWorker (i : Int)) :=
  ⟨rfl, ((Start_spawns_concurrency_workers Runtime.amd64
    (World.init (NewMaster "localhost:11300" ["default"] 3 : Master Nat Nat Nat))
    (by decide)).1 none
    (Start Runtime.amd64 (World.init
      (NewMaster "localhost:11300" ["default"] 3 : Master Nat Nat Nat))).state.2 rfl).2.2.1⟩

/-- C7 (as stated, refuted): with concurrency `n ≥ 1`, `Start` can panic.  For
`n = 9223372036854775807` on linux/amd64 the `make` of the `quit` channel
panics with "makechan: size out of range"; and with the counter of `mg` at
2147483647, `mg.Add(1)` panics for concurrency 1. -/
theorem Start_on_huge_concurrency_panics :
    (∃ s, Start Runtime.amd64 (World.init
      (NewMaster "localhost:11300" ["default"] 9223372036854775807 : Master Nat Nat Nat))
      = .panicked "makechan: size out of range" s) ∧
    (∃ s, Start Runtime.amd64
      { World.init (NewMaster "localhost:11300" ["default"] 1 : Master Nat Nat Nat) with
        m := { (NewMaster "localhost:11300" ["default"] 1 : Master Nat Nat Nat) with
               mg := 2147483647 } }
      = .panicked negativeCounterMsg s) := by
  constructor
  · simp [Start, World.init, NewMaster, Master.zero, makeChan, boolSize, Runtime.amd64,
      wgAdd, wrapInt32]
  · simp [Start, World.init, NewMaster, Master.zero, wgAdd, wrapInt32]

/-- C7 (amended): on a Master with concurrency `n ≥ 1`, `Start` returns a `nil`
error and does not panic whenever `mg.Add(1)` leaves the counter of `mg`
non-negative and the runtime grants the three allocations.  It never returns
another error and never parks.  Its only panics are `mg.Add(1)` storing a
negative counter and `make` refusing a size as too large: no size given to
`make` is negative, and no index written by the spawn loop lies outside the
pool. -/
theorem Start_succeeds (rt : Runtime) (w : World H C J) (hn : 1 ≤ w.m.concurrency) :
    (0 ≤ wgAdd w.m.mg 1 → rt.grantsStart w.m.concurrency →
      ∃ w1, Start rt w = .returned (none, w1)) ∧
    (∀ (e : GoError) (w1 : World H C J), Start rt w = .returned (e, w1) → e = none) ∧
    (Start rt w).isBlocked = false ∧
    (∀ (msg : String) (s : GoError × World H C J), Start rt w = .panicked msg s →
      (msg = negativeCounterMsg ∧ wgAdd w.m.mg 1 < 0) ∨
      (msg = "makechan: size out of range" ∧
        ((rt.maxAlloc : Int) - rt.hchanSize < (rt.ptrSize : Int) * 2 ∨
          (rt.maxAlloc : Int) - rt.hchanSize < (boolSize : Int) * w.m.concurrency)) ∨
      (msg = "makeslice: len out of range" ∧
        (rt.maxAlloc : Int) < (rt.ptrSize : Int) * w.m.concurrency)) := by
  obtain ⟨p1, p2, p3, p4⟩ := Start_panics rt w
  have hcases : (0 ≤ wgAdd w.m.mg 1 ∧ rt.grantsStart w.m.concurrency) ∨
      wgAdd w.m.mg 1 < 0 ∨
      (0 ≤ wgAdd w.m.mg 1 ∧
        (rt.maxAlloc : Int) - rt.hchanSize < (rt.ptrSize : Int) * 2) ∨
      (0 ≤ wgAdd w.m.mg 1 ∧
        (rt.ptrSize : Int) * 2 ≤ (rt.maxAlloc : Int) - rt.hchanSize ∧
        (rt.maxAlloc : Int) - rt.hchanSize < (boolSize : Int) * w.m.concurrency) ∨
      (0 ≤ wgAdd w.m.mg 1 ∧
        (rt.ptrSize : Int) * 2 ≤ (rt.maxAlloc : Int) - rt.hchanSize ∧
        (boolSize : Int) * w.m.concurrency ≤ (rt.maxAlloc : Int) - rt.hchanSize ∧
        (rt.maxAlloc : Int) < (rt.ptrSize : Int) * w.m.concurrency) := by
    unfold Runtime.grantsStart
    omega
  refine ⟨?_, ?_, ?_, ?_⟩
  · intro hmg hgrant
    obtain ⟨ws, hrun, _, _⟩ := Start_returns rt w (by omega) hmg hgrant
    exact ⟨_, hrun⟩
  · intro e w1 hstart
    exact (Start_returned_fields rt w w1 e hstart).1
  · rcases hcases with ⟨hmg, hgrant⟩ | h | ⟨h0, h1⟩ | ⟨h0, h1, h2⟩ | ⟨h0, h1, h2, h3⟩
    · obtain ⟨ws, hrun, _, _⟩ := Start_returns rt w (by omega) hmg hgrant
      rw [hrun]; rfl
    · obtain ⟨s, hs⟩ := p1 h
      rw [hs]; rfl
    · obtain ⟨s, hs⟩ := p2 h0 h1
      rw [hs]; rfl
    · obtain ⟨s, hs⟩ := p3 h0 h1 (Or.inr h2)
      rw [hs]; rfl
    · obtain ⟨s, hs⟩ := p4 h0 h1 (by omega) h2 h3
      rw [hs]; rfl
  · intro msg s hp
    rcases hcases with ⟨hmg, hgrant⟩ | h | ⟨h0, h1⟩ | ⟨h0, h1, h2⟩ | ⟨h0, h1, h2, h3⟩
    · obtain ⟨ws, hrun, _, _⟩ := Start_returns rt w (by omega) hmg hgrant
      rw [hrun] at hp
      cases hp
    · obtain ⟨s1, hs⟩ := p1 h
      rw [hs] at hp
      injection hp with hmsg _
      exact Or.inl ⟨hmsg.symm, h⟩
    · obtain ⟨s1, hs⟩ := p2 h0 h1
      rw [hs] at hp
      injection hp with hmsg _
      exact Or.inr (Or.inl ⟨hmsg.symm, Or.inl h1⟩)
    · obtain ⟨s1, hs⟩ := p3 h0 h1 (Or.inr h2)
      rw [hs] at hp
      injection hp with hmsg _
      exact Or.inr (Or.inl ⟨hmsg.symm, Or.inr h2⟩)
    · obtain ⟨s1, hs⟩ := p4 h0 h1 (by omega) h2 h3
      rw [hs] at hp
      injection hp with hmsg _
      exact Or.inr (Or.inr ⟨hmsg.symm, h3⟩)

/-- Witness of C7 (amended): a new Master with concurrency 1 on linux/amd64. -/
theorem Start_succeeds_witness :
    ∃ w1, Start Runtime.amd64 (World.init
      (NewMaster "localhost:11300" ["default"] 1 : Master Nat Nat Nat)) = .returned (none, w1) :=
  (Start_succeeds Runtime.amd64
    (World.init (NewMaster "localhost:11300" ["default"] 1 : Master Nat Nat Nat))
    (by decide)).1 (by decide) (by unfold Runtime.grantsStart; decide)

/-! ## Stop and Wait -/

/-- The signalling loop touches only the `quit` channel, and it never panics:
it returns or parks. -/
theorem Stop.signal_frame (k : Nat) :
    ∀ (w : World H C J),
      (∃ q, Stop.signal k w = .returned { w with m := { w.m with quit := q } }) ∨
      (∃ q, Stop.signal k w = .blocked { w with m := { w.m with quit := q } }) := by
  induction k with
  | zero => intro w; exact Or.inl ⟨w.m.quit, rfl⟩
  | succ k ih =>
    intro w
    cases hs : chanSend w.m.quit true with
    | none => exact Or.inr ⟨w.m.quit, by simp [Stop.signal, hs]⟩
    | some q0 =>
      rcases ih { w with m := { w.m with quit := some q0 } } with ⟨q, hq⟩ | ⟨q, hq⟩
      · exact Or.inl ⟨q, by simp only [Stop.signal, hs, hq]⟩
      · exact Or.inr ⟨q, by simp only [Stop.signal, hs, hq]⟩

/-- When `k` more values fit in the buffer of `quit`, the signalling loop
returns with `k` signals appended and nothing else changed. -/
theorem Stop.signal_fits (k : Nat) :
    ∀ (w : World H C J) (cap : Nat) (buf : List Bool), w.m.quit = some ⟨cap, buf⟩ →
      buf.length + k ≤ cap →
      Stop.signal k w = .returned
        { w with m := { w.m with quit := some ⟨cap, buf ++ List.replicate k true⟩ } } := by
  induction k with
  | zero =>
    intro w cap buf hq _
    simp [Stop.signal, ← hq]
  | succ k ih =>
    intro w cap buf hq hfit
    have hlt : buf.length < cap := by omega
    have hs : chanSend w.m.quit true = some ⟨cap, buf ++ [true]⟩ := by
      simp [chanSend, hq, hlt]
    simp only [Stop.signal, hs]
    rw [ih _ cap (buf ++ [true]) rfl (by simp; omega)]
    simp [List.replicate_succ]

/-- What one call of `Stop` does to the world, by outcome.  The error is `nil`
in every case and only `quit`, `mg` and the log change.  A call that returns
found the worker barrier at zero and stored a non-negative counter in `mg`; a
call that parks left `mg` alone; a call that panics stored a negative counter
in `mg`. -/
theorem Stop_outcome (w : World H C J) :
    (Stop w).state.1 = none ∧
    (Stop w).state.2.m.concurrency = w.m.concurrency ∧
    (Stop w).state.2.m.wg = w.m.wg ∧
    (Stop w).state.2.goroutines = w.goroutines ∧
    ((Stop w).isReturned = true →
      w.m.wg = 0 ∧ (Stop w).state.2.m.mg = wgAdd w.m.mg (-1) ∧ 0 ≤ wgAdd w.m.mg (-1)) ∧
    ((Stop w).isBlocked = true → (Stop w).state.2.m.mg = w.m.mg) ∧
    ((Stop w).isPanicked = true →
      (Stop w).state.2.m.mg = wgAdd w.m.mg (-1) ∧ wgAdd w.m.mg (-1) < 0) := by
  rcases Stop.signal_frame w.m.concurrency.toNat
      (logInfo "master: stopping %d workers..." [w.m.concurrency] w) with ⟨q, hq⟩ | ⟨q, hq⟩
  · simp only [logInfo] at hq
    by_cases hwg : w.m.wg = 0
    · by_cases hmg : wgAdd w.m.mg (-1) < 0
      · simp [Stop, logInfo, hq, hwg, hmg, Outcome.state, Outcome.isReturned,
          Outcome.isBlocked, Outcome.isPanicked]
      · simp [Stop, logInfo, hq, hwg, hmg, Outcome.state, Outcome.isReturned,
          Outcome.isBlocked, Outcome.isPanicked]
        omega
    · simp [Stop, logInfo, hq, hwg, Outcome.state, Outcome.isReturned,
        Outcome.isBlocked, Outcome.isPanicked]
  · simp only [logInfo] at hq
    simp [Stop, logInfo, hq, Outcome.state, Outcome.isReturned,
      Outcome.isBlocked, Outcome.isPanicked]

/-- After a `Start` that returned, the signalling loop of `Stop` puts one
signal per worker into the empty `quit` channel and none of the sends parks;
`Stop` then goes on to the worker barrier. -/
theorem Stop_after_Start_signals (w1 : World H C J) (n : Nat)
    (hq : w1.m.quit = some ⟨n, []⟩) (hn : w1.m.concurrency.toNat = n) :
    (Stop w1).state.2.m.quit = some ⟨n, List.replicate n true⟩ ∧
    ((Stop w1).isReturned = true ↔ w1.m.wg = 0 ∧ 0 ≤ wgAdd w1.m.mg (-1)) ∧
    ((Stop w1).isBlocked = true ↔ w1.m.wg ≠ 0) := by
  have hsig := Stop.signal_fits n
    (logInfo "master: stopping %d workers..." [w1.m.concurrency] w1) n [] hq (by simp)
  simp only [logInfo, List.nil_append] at hsig
  by_cases hwg : w1.m.wg = 0
  · by_cases hmg : wgAdd w1.m.mg (-1) < 0
    · simp [Stop, logInfo, hn, hsig, hwg, hmg, Outcome.state, Outcome.isReturned,
        Outcome.isBlocked]
    · simp [Stop, logInfo, hn, hsig, hwg, hmg, Outcome.state, Outcome.isReturned,
        Outcome.isBlocked]
      omega
  · simp [Stop, logInfo, hn, hsig, hwg, Outcome.state, Outcome.isReturned,
      Outcome.isBlocked]

/-- C4: on a Master with concurrency `n` that has been started, `Stop` sends
exactly `n` quit signals, one per started worker, into the `quit` channel that
`Start` made empty with capacity `n`: every one of the `n` sends fits in the
buffer, and with no worker consuming a signal the channel then holds exactly
`n` signals; `Stop` parks at no send, only at the worker barrier. -/
theorem Stop_sends_one_quit_per_worker (rt : Runtime) (w w1 : World H C J) (e : GoError)
    (hstart : Start rt w = .returned (e, w1)) :
    w1.m.quit = some ⟨w1.m.concurrency.toNat, []⟩ ∧
    w1.goroutines.length = w.goroutines.length + w1.m.concurrency.toNat ∧
    (∀ k, k ≤ w1.m.concurrency.toNat →
      ∃ w2, Stop.signal k (logInfo "master: stopping %d workers..." [w1.m.concurrency] w1)
          = .returned w2 ∧
        w2.m.quit = some ⟨w1.m.concurrency.toNat, List.replicate k true⟩ ∧
        (List.replicate k true).length ≤ w1.m.concurrency.toNat) ∧
    (Stop w1).state.2.m.quit
      = some ⟨w1.m.concurrency.toNat, List.replicate w1.m.concurrency.toNat true⟩ ∧
    ((Stop w1).isBlocked = true → w1.m.wg ≠ 0) := by
  obtain ⟨hn, hmg, hgrant⟩ := Start_returned_granted rt w _ hstart
  obtain ⟨ws, hrun, _, _⟩ := Start_returns rt w hn hmg hgrant
  rw [hrun] at hstart
  injection hstart with hstart
  injection hstart with _ hw1
  subst hw1
  refine ⟨rfl, by simp, ?_, ?_, ?_⟩
  · intro k hk
    refine ⟨_, Stop.signal_fits k _ w.m.concurrency.toNat [] rfl (by simpa using hk), ?_, ?_⟩
    · simp
    · simpa using hk
  · refine (Stop_after_Start_signals _ w.m.concurrency.toNat ?_ ?_).1 <;> rfl
  · refine (Stop_after_Start_signals _ w.m.concurrency.toNat ?_ ?_).2.2.mp <;> rfl

/-- Witness of C4: a new Master with concurrency 2, started. -/
theorem Stop_sends_one_quit_per_worker_witness :
    (Start Runtime.amd64 (World.init (NewMaster "localhost:11300" ["default"] 2 : Master Nat Nat Nat))
      ).isReturned = true ∧
    (Stop (Start Runtime.amd64 (World.init (NewMaster "localhost:11300" ["default"] 2 : Master Nat Nat Nat))
      ).state.2).state.2.m.quit = some ⟨2, [true, true]⟩ :=
  ⟨rfl, (Stop_sends_one_quit_per_worker Runtime.amd64
    (World.init (NewMaster "localhost:11300" ["default"] 2 : Master Nat Nat Nat))
    (Start Runtime.amd64 (World.init (NewMaster "localhost:11300" ["default"] 2 : Master Nat Nat Nat))
      ).state.2 none rfl).2.2.2.1⟩

/-- A Master registered from `NewMaster` has both wait groups at zero, no
`quit` channel, and the concurrency given to `NewMaster`. -/
theorem registerAll_NewMaster_idle (url : String) (tubes : List String) (n : Int)
    (calls : List (Registration H C)) (m0 : Master H C J)
    (hreg : registerAll (NewMaster url tubes n : Master H C J) calls = .returned m0) :
    m0.mg = 0 ∧ m0.wg = 0 ∧ m0.quit = none ∧ m0.concurrency = n := by
  obtain ⟨m', hrun, _, _, _, _, _, _, hconc, _, _, _, _, _, hquit, hmg, hwg⟩ :=
    registerAll_allocated calls (NewMaster url tubes n : Master H C J)
      (by simp [NewMaster, GoMap.make]) (by simp [NewMaster, GoMap.make])
      (by simp [NewMaster, GoMap.make])
  rw [hrun] at hreg
  injection hreg with hreg
  subst hreg
  exact ⟨hmg, hwg, hquit, hconc⟩

/-- C5 (as stated, refuted): `Stop` on a Master that is not running returns no
error.  Never started with concurrency 1, it parks on the send to the `nil`
quit channel; never started with concurrency 0, it panics at `mg.Done()`;
stopped once already with no signal consumed, it parks on the full buffer. In
each case the error it holds is `nil`. -/
theorem Stop_on_idle_Master_gives_no_error :
    (Stop (World.init (NewMaster "localhost:11300" ["default"] 1 : Master Nat Nat Nat))
      ).isBlocked = true ∧
    (Stop (World.init (NewMaster "localhost:11300" ["default"] 1 : Master Nat Nat Nat))
      ).state.1 = none ∧
    (Stop (World.init (NewMaster "localhost:11300" ["default"] 0 : Master Nat Nat Nat))
      ).isPanicked = true ∧
    (Stop (World.init (NewMaster "localhost:11300" ["default"] 0 : Master Nat Nat Nat))
      ).state.1 = none ∧
    (Stop (Start Runtime.amd64 (World.init
      (NewMaster "localhost:11300" ["default"] 1 : Master Nat Nat Nat))).state.2
      ).isReturned = true ∧
    (Stop (Stop (Start Runtime.amd64 (World.init
      (NewMaster "localhost:11300" ["default"] 1 : Master Nat Nat Nat))).state.2).state.2
      ).isBlocked = true ∧
    (Stop (Stop (Start Runtime.amd64 (World.init
      (NewMaster "localhost:11300" ["default"] 1 : Master Nat Nat Nat))).state.2).state.2
      ).state.1 = none :=
  ⟨rfl, rfl, rfl, rfl, rfl, rfl, rfl⟩

/-- C5 (amended): `Stop` never reports an error.  Whenever it returns, its
error is `nil`; and on a Master that is not running (the counter of `mg` is
zero, as it is before any `Start` and again after a `Start` matched by a
completed `Stop`) it does not return at all: it parks, or it panics at
`mg.Done()`.  Never started, it parks on the `nil` quit channel when the
concurrency is at least 1 and panics otherwise. -/
theorem Stop_never_reports_an_error :
    (∀ (w : World H C J) (e : GoError) (w1 : World H C J),
      Stop w = .returned (e, w1) → e = none) ∧
    (∀ (w : World H C J), w.m.mg = 0 →
      (Stop w).isReturned = false ∧ (Stop w).state.1 = none) ∧
    (∀ (url : String) (tubes : List String) (n : Int) (calls : List (Registration H C))
      (m0 : Master H C J), registerAll (NewMaster url tubes n) calls = .returned m0 →
      (World.init m0).m.mg = 0 ∧
      (1 ≤ n → (Stop (World.init m0)).isBlocked = true) ∧
      (n ≤ 0 → (Stop (World.init m0)).isPanicked = true)) ∧
    (∀ (rt : Runtime) (w w1 w2 : World H C J) (e1 e2 : GoError), w.m.mg = 0 →
      Start rt w = .returned (e1, w1) → Stop w1 = .returned (e2, w2) → w2.m.mg = 0) := by
  refine ⟨?_, ?_, ?_, ?_⟩
  · intro w e w1 h
    have h1 := (Stop_outcome w).1
    rw [h] at h1
    exact h1
  · intro w hmg
    obtain ⟨herr, _, _, _, hret, _, _⟩ := Stop_outcome w
    refine ⟨?_, herr⟩
    have h0 : wgAdd w.m.mg (-1) = -1 := by
      rw [hmg]; exact wgAdd_small 0 (-1) (by omega) (Or.inr rfl)
    cases hr : (Stop w).isReturned with
    | false => rfl
    | true => have := (hret hr).2.2; omega
  · intro url tubes n calls m0 hreg
    obtain ⟨hmg, hwg, hquit, hconc⟩ := registerAll_NewMaster_idle url tubes n calls m0 hreg
    refine ⟨hmg, ?_, ?_⟩
    · intro hn
      obtain ⟨k, hk⟩ : ∃ k, n.toNat = k + 1 := ⟨n.toNat - 1, by omega⟩
      simp [Stop, logInfo, World.init, hconc, hk, Stop.signal, chanSend, hquit,
        Outcome.isBlocked]
    · intro hn
      have hk : n.toNat = 0 := by omega
      have h0 : wgAdd (0 : Int) (-1) < 0 := by
        rw [wgAdd_small 0 (-1) (by omega) (Or.inr rfl)]; omega
      simp [Stop, logInfo, World.init, hconc, hk, Stop.signal, hwg, hmg, h0,
        Outcome.isPanicked]
  · intro rt w w1 w2 e1 e2 hmg hstart hstop
    obtain ⟨_, _, _, hmg1, _⟩ := Start_returned_fields rt w w1 e1 hstart
    obtain ⟨_, _, _, _, hret, _, _⟩ := Stop_outcome w1
    rw [hstop] at hret
    have := (hret rfl).2.1
    simp only [Outcome.state] at this
    rw [this, hmg1, hmg, wgAdd_small 0 1 (by omega) (Or.inl rfl),
      wgAdd_small (0 + 1) (-1) (by omega) (Or.inr rfl)]
    omega

/-- Witness of C5 (amended): a never-started Master with concurrency 1. -/
theorem Stop_never_reports_an_error_witness :
    (World.init (NewMaster "localhost:11300" ["default"] 1 : Master Nat Nat Nat)).m.mg = 0 ∧
    (Stop (World.init (NewMaster "localhost:11300" ["default"] 1 : Master Nat Nat Nat))
      ).isReturned = false ∧
    (Stop (World.init (NewMaster "localhost:11300" ["default"] 1 : Master Nat Nat Nat))
      ).state.1 = none :=
  ⟨rfl, (Stop_never_reports_an_error (H := Nat) (C := Nat) (J := Nat)).2.1
    (World.init (NewMaster "localhost:11300" ["default"] 1)) rfl⟩

/-- `Wait` parks exactly while the counter of `mg` is not zero. -/
theorem Wait_blocked_iff (w : World H C J) :
    ((Wait w).isBlocked = true ↔ w.m.mg ≠ 0) ∧ ((Wait w).isReturned = true ↔ w.m.mg = 0) := by
  by_cases h : w.m.mg = 0
  · simp [Wait, h, Outcome.isBlocked, Outcome.isReturned]
  · simp [Wait, h, Outcome.isBlocked, Outcome.isReturned]

/-- C6: with `mg` as a counter on which `Wait` parks exactly while it is
positive, on a Master built by `NewMaster`: after one `Start` the counter is 1
and `Wait` parks; as long as the matching `Stop` has not returned the counter
is still 1 and `Wait` still parks; once that `Stop` has returned the counter
is 0 and `Wait` returns; and `Stop` never drives the counter below zero (it
does not panic).  Run with no worker holding the barrier, that `Stop` does
return. -/
theorem Wait_blocks_until_Stop_completes (rt : Runtime) (url : String) (tubes : List String)
    (n : Int)
    (calls : List (Registration H C)) (m0 : Master H C J) (e1 : GoError) (w1 : World H C J)
    (hreg : registerAll (NewMaster url tubes n : Master H C J) calls = .returned m0)
    (hstart : Start rt (World.init m0) = .returned (e1, w1)) :
    (World.init m0).m.mg = 0 ∧
    w1.m.mg = 1 ∧ Wait w1 = .blocked w1 ∧
    (∀ w : World H C J, w.m.mg = 1 →
      (Stop w).isPanicked = false ∧
      ((Stop w).isReturned = false →
        (Stop w).state.2.m.mg = 1 ∧ (Wait (Stop w).state.2).isBlocked = true) ∧
      ((Stop w).isReturned = true →
        (Stop w).state.2.m.mg = 0 ∧ (Wait (Stop w).state.2).isReturned = true)) ∧
    (∃ e2 w2, Stop w1 = .returned (e2, w2) ∧ w2.m.mg = 0 ∧ Wait w2 = .returned w2) := by
  obtain ⟨hmg0, hwg0, _, _⟩ := registerAll_NewMaster_idle url tubes n calls m0 hreg
  obtain ⟨_, _, hconc, hmg1, _, hwg1, hquit, _⟩ := Start_returned_fields rt _ w1 e1 hstart
  have hmg1' : w1.m.mg = 1 := by
    rw [hmg1]
    simp only [World.init, hmg0]
    exact wgAdd_small 0 1 (by omega) (Or.inl rfl)
  have hwg1' : w1.m.wg = 0 := by rw [hwg1]; simp [World.init, hwg0]
  have hgen : ∀ w : World H C J, w.m.mg = 1 →
      (Stop w).isPanicked = false ∧
      ((Stop w).isReturned = false →
        (Stop w).state.2.m.mg = 1 ∧ (Wait (Stop w).state.2).isBlocked = true) ∧
      ((Stop w).isReturned = true →
        (Stop w).state.2.m.mg = 0 ∧ (Wait (Stop w).state.2).isReturned = true) := by
    intro w hw
    obtain ⟨_, _, _, _, hret, hblk, hpan⟩ := Stop_outcome w
    have hval : wgAdd w.m.mg (-1) = 0 := by
      rw [hw]; exact wgAdd_small 1 (-1) (by omega) (Or.inr rfl)
    have hnp : (Stop w).isPanicked = false := by
      cases hp : (Stop w).isPanicked with
      | false => rfl
      | true => have := (hpan hp).2; omega
    refine ⟨hnp, ?_, ?_⟩
    · intro hnr
      have hb : (Stop w).isBlocked = true := by
        cases hs : Stop w with
        | returned r => rw [hs] at hnr; simp [Outcome.isReturned] at hnr
        | blocked r => rfl
        | panicked msg r => rw [hs] at hnp; simp [Outcome.isPanicked] at hnp
      have hm := hblk hb
      refine ⟨by omega, (Wait_blocked_iff _).1.mpr (by omega)⟩
    · intro hr
      have hm := (hret hr).2.1
      refine ⟨by omega, (Wait_blocked_iff _).2.mpr (by omega)⟩
  refine ⟨by simp [World.init, hmg0], hmg1', by simp [Wait, hmg1'], hgen, ?_⟩
  have hval1 : wgAdd w1.m.mg (-1) = 0 := by
    rw [hmg1']; exact wgAdd_small 1 (-1) (by omega) (Or.inr rfl)
  have hret : (Stop w1).isReturned = true :=
    (Stop_after_Start_signals w1 _ (by rw [hquit, hconc]) rfl).2.1.mpr ⟨hwg1', by omega⟩
  cases hs : Stop w1 with
  | returned r =>
    obtain ⟨e2, w2⟩ := r
    have h2 := (hgen w1 hmg1').2.2 hret
    rw [hs] at h2
    simp only [Outcome.state] at h2
    exact ⟨e2, w2, rfl, h2.1, by simp [Wait, h2.1]⟩
  | blocked r => rw [hs] at hret; simp [Outcome.isReturned] at hret
  | panicked msg r => rw [hs] at hret; simp [Outcome.isReturned] at hret

/-- Witness of C6: a new Master with concurrency 2 and one registration. -/
theorem Wait_blocks_until_Stop_completes_witness :
    (Start Runtime.amd64 (World.init (registerAll
      (NewMaster "localhost:11300" ["default"] 2 : Master Nat Nat Nat)
      [⟨"email", 1, 2, 30⟩]).state)).state.2.m.mg = 1 ∧
    (Stop (Start Runtime.amd64 (World.init (registerAll
      (NewMaster "localhost:11300" ["default"] 2 : Master Nat Nat Nat)
      [⟨"email", 1, 2, 30⟩]).state)).state.2).state.2.m.mg = 0 :=
  have h := Wait_blocks_until_Stop_completes Runtime.amd64 "localhost:11300" ["default"] 2
    [⟨"email", 1, 2, 30⟩]
    (registerAll (NewMaster "localhost:11300" ["default"] 2 : Master Nat Nat Nat)
      [⟨"email", 1, 2, 30⟩]).state
    none
    (Start Runtime.amd64 (World.init (registerAll
      (NewMaster "localhost:11300" ["default"] 2 : Master Nat Nat Nat)
      [⟨"email", 1, 2, 30⟩]).state)).state.2
    rfl rfl
  ⟨h.2.1, rfl⟩

/-- C9: two calls of `Start` on a Master with concurrency `n` and no `Stop`
between them spawn `2n` worker loops in all, the second `n` duplicating the
first; the pool and the `quit` channel are then fresh ones of size `n`, and
the counter of `mg` is 2, so that one following `Stop`, which takes one off,
leaves `Wait` parked. -/
theorem Start_twice_duplicates_workers (rt : Runtime) (url : String) (tubes : List String)
    (n : Int)
    (calls : List (Registration H C)) (m0 : Master H C J) (e1 e2 : GoError)
    (w1 w2 : World H C J)
    (hreg : registerAll (NewMaster url tubes n : Master H C J) calls = .returned m0)
    (hstart1 : Start rt (World.init m0) = .returned (e1, w1))
    (hstart2 : Start rt w1 = .returned (e2, w2)) :
    w1.goroutines = (List.range n.toNat).map (fun (j : Nat) => NewWorker (j : Int)) ∧
    w2.goroutines = (List.range n.toNat).map (fun (j : Nat) => NewWorker (j : Int)) ++
      (List.range n.toNat).map (fun (j : Nat) => NewWorker (j : Int)) ∧
    (w2.goroutines.length : Int) = 2 * n ∧
    w2.m.workers.length = n.toNat ∧
    (∀ j, j < n.toNat → w2.m.workers[j]? = some (some (NewWorker (j : Int)))) ∧
    w2.m.quit = some ⟨n.toNat, []⟩ ∧
    w2.m.mg = 2 ∧ Wait w2 = .blocked w2 ∧
    (∀ w : World H C J, w.m.mg = 2 →
      (Stop w).isPanicked = false ∧
      ((Stop w).isReturned = true → (Stop w).state.2.m.mg = 1) ∧
      (Wait (Stop w).state.2).isBlocked = true) ∧
    (∃ e3 w3, Stop w2 = .returned (e3, w3) ∧ w3.m.mg = 1 ∧ Wait w3 = .blocked w3) := by
  obtain ⟨hmg0, hwg0, _, hconc0⟩ := registerAll_NewMaster_idle url tubes n calls m0 hreg
  obtain ⟨_, hn, hconc1, hmg1, _, hwg1, _, _, _, hgo1⟩ :=
    Start_returned_fields rt _ w1 e1 hstart1
  obtain ⟨_, _, hconc2, hmg2, _, hwg2, hquit2, hlen2, hws2, hgo2⟩ :=
    Start_returned_fields rt _ w2 e2 hstart2
  have hc1 : w1.m.concurrency = n := by rw [hconc1]; exact hconc0
  have hc2 : w2.m.concurrency = n := by rw [hconc2]; exact hc1
  have hn0 : 0 ≤ n := by simpa [World.init, hconc0] using hn
  have hmg2' : w2.m.mg = 2 := by
    rw [hmg2, hmg1]
    simp only [World.init, hmg0]
    rw [wgAdd_small 0 1 (by omega) (Or.inl rfl),
      wgAdd_small (0 + 1) 1 (by omega) (Or.inl rfl)]
    rfl
  have hwg2' : w2.m.wg = 0 := by rw [hwg2, hwg1]; simp [World.init, hwg0]
  have hgo1' : w1.goroutines
      = (List.range n.toNat).map (fun (j : Nat) => NewWorker (j : Int)) := by
    rw [hgo1]; simp [World.init, hconc0]
  have hgo2' : w2.goroutines
      = (List.range n.toNat).map (fun (j : Nat) => NewWorker (j : Int)) ++
        (List.range n.toNat).map (fun (j : Nat) => NewWorker (j : Int)) := by
    rw [hgo2, hgo1', hc1]
  refine ⟨hgo1', hgo2', ?_, by rw [hlen2, hc1], by rw [hc1] at hws2; exact hws2,
    by rw [hquit2, hc1], hmg2', by simp [Wait, hmg2'], ?_, ?_⟩
  · rw [hgo2']
    simp only [List.length_append, List.length_map, List.length_range]
    omega
  · intro w hw
    obtain ⟨_, _, _, _, hret, hblk, hpan⟩ := Stop_outcome w
    have hval : wgAdd w.m.mg (-1) = 1 := by
      rw [hw, wgAdd_small 2 (-1) (by omega) (Or.inr rfl)]; rfl
    have hnp : (Stop w).isPanicked = false := by
      cases hp : (Stop w).isPanicked with
      | false => rfl
      | true => have := (hpan hp).2; omega
    refine ⟨hnp, fun hr => by have := (hret hr).2.1; omega, (Wait_blocked_iff _).1.mpr ?_⟩
    cases hs : Stop w with
    | returned r =>
      have := (hret (by rw [hs]; rfl)).2.1
      rw [hs] at this
      simp only [Outcome.state] at this ⊢
      omega
    | blocked r =>
      have := hblk (by rw [hs]; rfl)
      rw [hs] at this
      simp only [Outcome.state] at this ⊢
      omega
    | panicked msg r => rw [hs] at hnp; simp [Outcome.isPanicked] at hnp
  · have hval2 : wgAdd w2.m.mg (-1) = 1 := by
      rw [hmg2', wgAdd_small 2 (-1) (by omega) (Or.inr rfl)]; rfl
    have hret : (Stop w2).isReturned = true :=
      (Stop_after_Start_signals w2 _ (by rw [hquit2, hconc2]) rfl).2.1.mpr ⟨hwg2', by omega⟩
    obtain ⟨_, _, _, _, hr, _, _⟩ := Stop_outcome w2
    have hm := (hr hret).2.1
    cases hs : Stop w2 with
    | returned r =>
      obtain ⟨e3, w3⟩ := r
      rw [hs] at hm
      simp only [Outcome.state] at hm
      have h3 : w3.m.mg = 1 := by omega
      exact ⟨e3, w3, rfl, h3, by simp [Wait, h3]⟩
    | blocked r => rw [hs] at hret; simp [Outcome.isReturned] at hret
    | panicked msg r => rw [hs] at hret; simp [Outcome.isReturned] at hret

/-- Witness of C9: a new Master with concurrency 2, started twice. -/
theorem Start_twice_duplicates_workers_witness :
    (Start Runtime.amd64 (Start Runtime.amd64 (World.init
      (NewMaster "localhost:11300" ["default"] 2 : Master Nat Nat Nat))).state.2
      ).state.2.goroutines = [NewWorker 0, NewWorker 1, NewWorker 0, NewWorker 1] ∧
    (Start Runtime.amd64 (Start Runtime.amd64 (World.init
      (NewMaster "localhost:11300" ["default"] 2 : Master Nat Nat Nat))).state.2
      ).state.2.m.mg = 2 :=
  have h := Start_twice_duplicates_workers Runtime.amd64 "localhost:11300" ["default"] 2 []
    (NewMaster "localhost:11300" ["default"] 2 : Master Nat Nat Nat) none none
    (Start Runtime.amd64 (World.init
      (NewMaster "localhost:11300" ["default"] 2 : Master Nat Nat Nat))).state.2
    (Start Runtime.amd64 (Start Runtime.amd64 (World.init
      (NewMaster "localhost:11300" ["default"] 2 : Master Nat Nat Nat))).state.2).state.2
    rfl rfl rfl
  ⟨h.2.1, h.2.2.2.2.2.2.1⟩

end Lifecycle

/-! ## Stop beside the worker loops -/

section Running

variable {H C J : Type}

/-- Replacing entry `j` of a list moves the count of `c` by the entry taken
out and the entry put in. -/
theorem count_set_of_getElem? {α : Type} [DecidableEq α] (l : List α) :
    ∀ (j : Nat) (a b c : α), l[j]? = some a →
      (l.set j b).count c + (if a = c then 1 else 0)
        = l.count c + (if b = c then 1 else 0) := by
  induction l with
  | nil => intro j a b c h; simp at h
  | cons x xs ih =>
    intro j a b c h
    cases j with
    | zero =>
      simp only [List.getElem?_cons_zero, Option.some.injEq] at h
      subst h
      simp only [List.set_cons_zero, List.count_cons, beq_iff_eq]
      omega
    | succ j =>
      simp only [List.getElem?_cons_succ] at h
      have := ih j a b c h
      simp only [List.set_cons_succ, List.count_cons, beq_iff_eq]
      omega

/-- A step of `Stop` leaves the worker barrier alone; it reaches `m.mg.Done()`
only from the wait with the barrier at zero, and returns only from there. -/
theorem stopStep_wg (pc pc1 : StopPc) (w w1 : World H C J)
    (h : stopStep pc w = some (pc1, w1)) :
    w1.m.wg = w.m.wg ∧ w1.goroutines = w.goroutines ∧
    (pc1 = .finishing → w.m.wg = 0) ∧
    (pc1 = .returned → pc = .finishing) := by
  cases pc with
  | entry =>
    simp only [stopStep, Option.some.injEq, Prod.mk.injEq] at h
    obtain ⟨h1, h2⟩ := h
    subst h1 h2
    simp [logInfo]
  | signalling i =>
    simp only [stopStep] at h
    split at h
    · split at h
      · simp at h
      · simp only [Option.some.injEq, Prod.mk.injEq] at h
        obtain ⟨h1, h2⟩ := h
        subst h1 h2
        simp
    · simp only [Option.some.injEq, Prod.mk.injEq] at h
      obtain ⟨h1, h2⟩ := h
      subst h1 h2
      simp
  | waiting =>
    simp only [stopStep] at h
    split at h
    · simp at h
    · rename_i hwg
      simp only [Option.some.injEq, Prod.mk.injEq] at h
      obtain ⟨h1, h2⟩ := h
      subst h1 h2
      simp only [ne_eq, Decidable.not_not] at hwg
      simp [logInfo, hwg]
  | finishing =>
    simp only [stopStep] at h
    split at h
    · simp only [Option.some.injEq, Prod.mk.injEq] at h
      obtain ⟨h1, h2⟩ := h
      subst h1 h2
      simp
    · simp only [Option.some.injEq, Prod.mk.injEq] at h
      obtain ⟨h1, h2⟩ := h
      subst h1 h2
      simp [logInfo]
  | returned => simp [stopStep] at h
  | panicked => simp [stopStep] at h

/-- The signalling loop taken step by step is the loop of `Stop.signal`: with
`k` iterations to go at counter `i`, the steps either reach the wait in the
world `Stop.signal` returns, or park at a send in the world where it parks. -/
theorem stopRun_signalling (k : Nat) :
    ∀ (i : Int) (w : World H C J) (fuel : Nat), (w.m.concurrency - i).toNat = k →
      match Stop.signal k w with
      | .returned w1 => stopRun (fuel + k + 1) (.signalling i) w = stopRun fuel .waiting w1
      | .blocked w1 =>
        ∃ i1, stopRun (fuel + k + 1) (.signalling i) w = (.signalling i1, w1) ∧
          stopStep (.signalling i1) w1 = none
      | .panicked _ _ => False := by
  induction k with
  | zero =>
    intro i w fuel hk
    have hlt : ¬ i < w.m.concurrency := by omega
    simp [Stop.signal, stopRun, stopStep, hlt]
  | succ k ih =>
    intro i w fuel hk
    have hlt : i < w.m.concurrency := by omega
    cases hs : chanSend w.m.quit true with
    | none =>
      simp only [Stop.signal, hs]
      exact ⟨i, by simp [stopRun, stopStep, hlt, hs], by simp [stopStep, hlt, hs]⟩
    | some q =>
      have hstep : stopRun (fuel + (k + 1) + 1) (.signalling i) w
          = stopRun (fuel + k + 1) (.signalling (i + 1))
              { w with m := { w.m with quit := some q } } := by
        show stopRun ((fuel + k + 1) + 1) (.signalling i) w = _
        simp only [stopRun, stopStep, hlt, hs, if_true]
      have hrec := ih (i + 1) { w with m := { w.m with quit := some q } } fuel
        (by simp only; omega)
      simp only [Stop.signal, hs]
      rw [hstep]
      exact hrec

/-- Once `Stop` has returned or panicked, no step is left. -/
theorem stopRun_done (fuel : Nat) (w : World H C J) :
    stopRun fuel .returned w = (.returned, w) ∧ stopRun fuel .panicked w = (.panicked, w) := by
  cases fuel <;> simp [stopRun, stopStep]

/-- `Stop` cut into steps is `Stop`: run alone with enough fuel, the steps end
where `Stop` ends, in the same world; where `Stop` parks, no step is left. -/
theorem stopRun_eq_Stop (w : World H C J) (fuel : Nat) :
    match Stop w with
    | .returned r => stopRun (fuel + w.m.concurrency.toNat + 4) .entry w = (.returned, r.2)
    | .panicked _ r => stopRun (fuel + w.m.concurrency.toNat + 4) .entry w = (.panicked, r.2)
    | .blocked r =>
      ∃ pc, stopRun (fuel + w.m.concurrency.toNat + 4) .entry w = (pc, r.2) ∧
        stopStep pc r.2 = none ∧ pc ≠ .returned ∧ pc ≠ .panicked := by
  have hentry : stopRun (fuel + w.m.concurrency.toNat + 4) .entry w
      = stopRun ((fuel + 2) + w.m.concurrency.toNat + 1) (.signalling 0)
          (logInfo "master: stopping %d workers..." [w.m.concurrency] w) := by
    have hf : fuel + 2 + w.m.concurrency.toNat + 1 = fuel + w.m.concurrency.toNat + 3 := by
      omega
    rw [hf]
    show stopRun ((fuel + w.m.concurrency.toNat + 3) + 1) .entry w = _
    simp only [stopRun, stopStep]
  have hsig := stopRun_signalling w.m.concurrency.toNat 0
    (logInfo "master: stopping %d workers..." [w.m.concurrency] w) (fuel + 2)
    (by simp [logInfo])
  rw [hentry]
  unfold Stop
  simp only
  cases hs : Stop.signal (logInfo "master: stopping %d workers..." [w.m.concurrency] w
      ).m.concurrency.toNat (logInfo "master: stopping %d workers..." [w.m.concurrency] w) with
  | panicked msg w2 =>
    simp only [logInfo] at hs hsig
    rw [hs] at hsig
    exact hsig.elim
  | blocked w2 =>
    simp only [logInfo] at hs hsig
    rw [hs] at hsig
    obtain ⟨i1, h1, h2⟩ := hsig
    simp only [logInfo]
    exact ⟨.signalling i1, h1, h2, by simp, by simp⟩
  | returned w2 =>
    simp only [logInfo] at hs hsig
    rw [hs] at hsig
    simp only [logInfo]
    rw [hsig]
    by_cases hwg : w2.m.wg = 0
    · by_cases hmg : wgAdd w2.m.mg (-1) < 0
      · simp [stopRun, stopStep, hwg, hmg, logInfo, stopRun_done]
      · simp [stopRun, stopStep, hwg, hmg, logInfo, stopRun_done]
    · simp only [ne_eq, hwg, not_false_eq_true, if_true]
      exact ⟨.waiting, by simp [stopRun, stopStep, hwg], by simp [stopStep, hwg],
        by simp, by simp⟩

/-- A worker step keeps the invariant and the number of loops. -/
theorem workerStep_inv (p p1 : Pool H C J) (j : Nat) (gotJob : Bool) (hinv : p.Inv)
    (h : workerStep p j gotJob = some p1) :
    p1.Inv ∧ p1.loops.length = p.loops.length ∧ p1.stop = p.stop := by
  obtain ⟨hsum, hbound, hcount, hpast, hcr⟩ := hinv
  unfold workerStep at h
  cases hl : p.loops[j]? with
  | none => simp [hl] at h
  | some st =>
    have hle := List.count_le_length WorkerState.stopped (p.loops.set j WorkerState.stopped)
    rw [List.length_set] at hle
    cases st with
    | idle =>
      have hcs := count_set_of_getElem? p.loops j WorkerState.idle WorkerState.stopped
        WorkerState.stopped hl
      simp only [if_true] at hcs
      have hne : ¬ (WorkerState.idle = WorkerState.stopped) := by decide
      simp only [hne, if_false, Nat.add_zero] at hcs
      have hpos : 1 ≤ p.world.m.wg := by omega
      have hval : wgAdd p.world.m.wg (-1) = p.world.m.wg - 1 := by
        rw [wgAdd_eq _ _ (by omega) (by omega)]; omega
      have hnn : ¬ wgAdd p.world.m.wg (-1) < 0 := by omega
      have hrd := count_set_of_getElem? p.loops j WorkerState.idle WorkerState.reserving
        WorkerState.stopped hl
      have hne2 : ¬ (WorkerState.reserving = WorkerState.stopped) := by decide
      simp only [hne, hne2, if_false, Nat.add_zero] at hrd
      simp only [hl] at h
      split at h
      · simp only [hnn, if_false, Option.some.injEq] at h
        subst h
        refine ⟨⟨?_, ?_, ?_, ?_, ?_⟩, ?_, rfl⟩
        · simp only [List.length_set, hval]
          push_cast
          omega
        · simp only [List.length_set]; exact hbound
        · simp only; omega
        · intro hp; have := hpast hp; omega
        · simpa using hcr
        · simp
      · simp only [Option.some.injEq] at h
        subst h
        refine ⟨⟨?_, ?_, ?_, hpast, hcr⟩, ?_, rfl⟩
        · simp only [List.length_set]; exact hsum
        · simp only [List.length_set]; exact hbound
        · simp only; omega
        · simp
    | reserving =>
      simp only [hl, Option.some.injEq] at h
      subst h
      have hrd := count_set_of_getElem? p.loops j WorkerState.reserving
        (if gotJob then WorkerState.dispatching else WorkerState.idle) WorkerState.stopped hl
      have hne : ¬ (WorkerState.reserving = WorkerState.stopped) := by decide
      have hne2 : ¬ ((if gotJob then WorkerState.dispatching else WorkerState.idle)
          = WorkerState.stopped) := by cases gotJob <;> decide
      simp only [hne, hne2, if_false, Nat.add_zero] at hrd
      refine ⟨⟨?_, ?_, ?_, hpast, hcr⟩, ?_, rfl⟩
      · simp only [List.length_set]; exact hsum
      · simp only [List.length_set]; exact hbound
      · simp only; omega
      · simp
    | dispatching =>
      simp only [hl, Option.some.injEq] at h
      subst h
      have hrd := count_set_of_getElem? p.loops j WorkerState.dispatching
        WorkerState.idle WorkerState.stopped hl
      have hne : ¬ (WorkerState.dispatching = WorkerState.stopped) := by decide
      have hne2 : ¬ (WorkerState.idle = WorkerState.stopped) := by decide
      simp only [hne, hne2, if_false, Nat.add_zero] at hrd
      refine ⟨⟨?_, ?_, ?_, hpast, hcr⟩, ?_, rfl⟩
      · simp only [List.length_set]; exact hsum
      · simp only [List.length_set]; exact hbound
      · simp only; omega
      · simp
    | stopped => simp [hl] at h

/-- A step of the pool keeps the invariant and the number of loops. -/
theorem Pool.step_inv (p p1 : Pool H C J) (a : Action) (hinv : p.Inv)
    (h : p.step a = some p1) : p1.Inv ∧ p1.loops.length = p.loops.length := by
  unfold Pool.step at h
  cases hc : p.crashed with
  | true => simp [hc] at h
  | false =>
    simp only [hc, Bool.false_eq_true, if_false] at h
    cases a with
    | worker j gotJob =>
      obtain ⟨h1, h2, _⟩ := workerStep_inv p p1 j gotJob hinv h
      exact ⟨h1, h2⟩
    | stop =>
      obtain ⟨hsum, hbound, hcount, hpast, hcr⟩ := hinv
      simp only at h
      cases hs : stopStep p.stop p.world with
      | none => simp [hs] at h
      | some r =>
        obtain ⟨pc, w⟩ := r
        obtain ⟨hwg, _, hfin, hret⟩ := stopStep_wg _ _ _ _ hs
        have hpast1 : (pc = .finishing ∨ pc = .returned) → w.m.wg = 0 := by
          intro hp
          rcases hp with hp | hp
          · rw [hwg]; exact hfin hp
          · rw [hwg]; exact hpast (Or.inl (hret hp))
        by_cases hpc : pc = .panicked
        · subst hpc
          simp only [hs, Option.some.injEq] at h
          subst h
          exact ⟨⟨by simp only; omega, hbound, hcount, by simp, by simp⟩, rfl⟩
        · have h2 : p1 = { p with stop := pc, world := w } := by
            cases pc <;> simp_all
          subst h2
          exact ⟨⟨by simp only; omega, hbound, hcount, hpast1, by simp [hc, hpc]⟩, rfl⟩

/-- Every schedule keeps the invariant and the number of loops. -/
theorem Pool.run_inv (sched : List Action) :
    ∀ (p p1 : Pool H C J), p.Inv → p.run sched = some p1 →
      p1.Inv ∧ p1.loops.length = p.loops.length := by
  induction sched with
  | nil =>
    intro p p1 hinv h
    simp only [Pool.run, Option.some.injEq] at h
    subst h
    exact ⟨hinv, rfl⟩
  | cons a rest ih =>
    intro p p1 hinv h
    simp only [Pool.run] at h
    cases hs : p.step a with
    | none => simp [hs] at h
    | some p2 =>
      simp only [hs] at h
      obtain ⟨hinv2, hlen2⟩ := Pool.step_inv p p2 a hinv hs
      obtain ⟨hinv1, hlen1⟩ := ih p2 p1 hinv2 h
      exact ⟨hinv1, by rw [hlen1, hlen2]⟩

/-- A step of `Stop` changes `mg` only at `m.mg.Done()`: there it stores the
counter one lower and returns, or panics when what it stored is negative;
every other step leaves the counter alone and does not end the call. -/
theorem stopStep_mg (pc pc1 : StopPc) (w w1 : World H C J)
    (h : stopStep pc w = some (pc1, w1)) :
    (pc = .finishing ∧ 0 ≤ wgAdd w.m.mg (-1) ∧ pc1 = .returned ∧
      w1.m.mg = wgAdd w.m.mg (-1)) ∨
    (pc = .finishing ∧ wgAdd w.m.mg (-1) < 0 ∧ pc1 = .panicked ∧
      w1.m.mg = wgAdd w.m.mg (-1)) ∨
    (pc ≠ .finishing ∧ pc1 ≠ .returned ∧ pc1 ≠ .panicked ∧ w1.m.mg = w.m.mg) := by
  cases pc with
  | entry =>
    simp only [stopStep, Option.some.injEq, Prod.mk.injEq] at h
    obtain ⟨h1, h2⟩ := h
    subst h1 h2
    simp [logInfo]
  | signalling i =>
    simp only [stopStep] at h
    split at h
    · split at h
      · simp at h
      · simp only [Option.some.injEq, Prod.mk.injEq] at h
        obtain ⟨h1, h2⟩ := h
        subst h1 h2
        simp
    · simp only [Option.some.injEq, Prod.mk.injEq] at h
      obtain ⟨h1, h2⟩ := h
      subst h1 h2
      simp
  | waiting =>
    simp only [stopStep] at h
    split at h
    · simp at h
    · simp only [Option.some.injEq, Prod.mk.injEq] at h
      obtain ⟨h1, h2⟩ := h
      subst h1 h2
      simp [logInfo]
  | finishing =>
    simp only [stopStep] at h
    by_cases hmg : wgAdd w.m.mg (-1) < 0
    · simp only [hmg, if_true, Option.some.injEq, Prod.mk.injEq] at h
      obtain ⟨h1, h2⟩ := h
      subst h1 h2
      exact Or.inr (Or.inl ⟨rfl, hmg, rfl, rfl⟩)
    · simp only [hmg, if_false, Option.some.injEq, Prod.mk.injEq] at h
      obtain ⟨h1, h2⟩ := h
      subst h1 h2
      exact Or.inl ⟨rfl, by omega, rfl, rfl⟩
  | returned => simp [stopStep] at h
  | panicked => simp [stopStep] at h

/-- A worker step touches neither `mg` nor the caller of `Stop`. -/
theorem workerStep_mg (p p1 : Pool H C J) (j : Nat) (gotJob : Bool)
    (h : workerStep p j gotJob = some p1) :
    p1.world.m.mg = p.world.m.mg ∧ p1.stop = p.stop := by
  unfold workerStep at h
  cases hl : p.loops[j]? with
  | none => simp [hl] at h
  | some st =>
    cases st with
    | idle =>
      simp only [hl] at h
      split at h
      · split at h
        · simp only [Option.some.injEq] at h
          subst h
          exact ⟨rfl, rfl⟩
        · simp only [Option.some.injEq] at h
          subst h
          exact ⟨rfl, rfl⟩
      · simp only [Option.some.injEq] at h
        subst h
        exact ⟨rfl, rfl⟩
    | reserving =>
      simp only [hl, Option.some.injEq] at h
      subst h
      exact ⟨rfl, rfl⟩
    | dispatching =>
      simp only [hl, Option.some.injEq] at h
      subst h
      exact ⟨rfl, rfl⟩
    | stopped => simp [hl] at h

/-- One step of the pool keeps the account of `mg`: 1 while `Stop` has not
returned, 0 once it has, and no panic of `Stop`. -/
theorem Pool.step_mg (p p2 : Pool H C J) (a : Action) (hnp : p.stop ≠ .panicked)
    (hr : p.stop = .returned → p.world.m.mg = 0) (hnr : p.stop ≠ .returned → p.world.m.mg = 1)
    (hs : p.step a = some p2) :
    p2.stop ≠ .panicked ∧ (p2.stop = .returned → p2.world.m.mg = 0) ∧
      (p2.stop ≠ .returned → p2.world.m.mg = 1) := by
  unfold Pool.step at hs
  cases hc : p.crashed with
  | true => simp [hc] at hs
  | false =>
    simp only [hc, Bool.false_eq_true, if_false] at hs
    cases a with
    | worker j gotJob =>
      obtain ⟨h1, h2⟩ := workerStep_mg p p2 j gotJob hs
      rw [h1, h2]
      exact ⟨hnp, hr, hnr⟩
    | stop =>
      simp only at hs
      cases hst : stopStep p.stop p.world with
      | none => simp [hst] at hs
      | some r =>
        obtain ⟨pc, w⟩ := r
        have hp2 : p2.stop = pc ∧ p2.world = w := by
          rw [hst] at hs
          by_cases hpc : pc = .panicked
          · subst hpc
            simp only [Option.some.injEq] at hs
            subst hs
            exact ⟨rfl, rfl⟩
          · have : p2 = { p with stop := pc, world := w } := by
              cases pc <;> simp_all
            subst this
            exact ⟨rfl, rfl⟩
        obtain ⟨hp2s, hp2w⟩ := hp2
        rw [hp2s, hp2w]
        have hpre : p.stop ≠ .returned := by
          intro hx
          rw [hx] at hst
          simp [stopStep] at hst
        have hone := hnr hpre
        have hval : wgAdd p.world.m.mg (-1) = 0 := by
          rw [hone]; exact wgAdd_small 1 (-1) (by omega) (Or.inr rfl)
        rcases stopStep_mg _ _ _ _ hst with ⟨_, _, h3, h4⟩ | ⟨_, h2, _, _⟩ | ⟨_, h2, h3, h4⟩
        · subst h3
          exact ⟨by simp, fun _ => by omega, fun hx => absurd rfl hx⟩
        · omega
        · exact ⟨h3, fun hx => absurd hx h2, fun _ => by rw [h4]; exact hone⟩

/-- Whatever the workers do between the steps of `Stop`: in a pool launched
with `mg` at 1, the counter is 1 as long as `Stop` has not returned and 0 once
it has, and `Stop` does not panic. -/
theorem Pool.run_mg (sched : List Action) :
    ∀ (p p1 : Pool H C J), p.stop ≠ .panicked →
      (p.stop = .returned → p.world.m.mg = 0) → (p.stop ≠ .returned → p.world.m.mg = 1) →
      p.run sched = some p1 →
      p1.stop ≠ .panicked ∧
      (p1.stop = .returned → p1.world.m.mg = 0 ∧ (Wait p1.world).isReturned = true) ∧
      (p1.stop ≠ .returned → p1.world.m.mg = 1 ∧ (Wait p1.world).isBlocked = true) := by
  induction sched with
  | nil =>
    intro p p1 hnp hr hnr h
    simp only [Pool.run, Option.some.injEq] at h
    subst h
    refine ⟨hnp, fun hs => ⟨hr hs, (Wait_blocked_iff _).2.mpr (hr hs)⟩,
      fun hs => ⟨hnr hs, (Wait_blocked_iff _).1.mpr (by rw [hnr hs]; decide)⟩⟩
  | cons a rest ih =>
    intro p p1 hnp hr hnr h
    simp only [Pool.run] at h
    cases hs : p.step a with
    | none => simp [hs] at h
    | some p2 =>
      simp only [hs] at h
      obtain ⟨g1, g2, g3⟩ := Pool.step_mg p p2 a hnp hr hnr hs
      exact ih p2 p1 g1 g2 g3 h

/-- With the workers running beside it: after a `Start` on a Master from
`NewMaster`, in every run of the pool `Wait` parks as long as `Stop` has not
returned and returns once it has. -/
theorem Pool.launch_mg (rt : Runtime) (url : String) (tubes : List String) (n : Int)
    (calls : List (Registration H C)) (m0 : Master H C J) (e1 : GoError) (w1 : World H C J)
    (sched : List Action) (p : Pool H C J)
    (hreg : registerAll (NewMaster url tubes n : Master H C J) calls = .returned m0)
    (hstart : Start rt (World.init m0) = .returned (e1, w1))
    (hrun : (Pool.launch w1).run sched = some p) :
    p.stop ≠ .panicked ∧
    (p.stop = .returned → p.world.m.mg = 0 ∧ (Wait p.world).isReturned = true) ∧
    (p.stop ≠ .returned → p.world.m.mg = 1 ∧ (Wait p.world).isBlocked = true) := by
  obtain ⟨hmg0, _, _, _⟩ := registerAll_NewMaster_idle url tubes n calls m0 hreg
  obtain ⟨_, _, _, hmg1, _⟩ := Start_returned_fields rt _ w1 e1 hstart
  have hmg1' : w1.m.mg = 1 := by
    rw [hmg1]
    simp only [World.init, hmg0]
    exact wgAdd_small 0 1 (by omega) (Or.inl rfl)
  exact Pool.run_mg sched (Pool.launch w1) p (by simp [Pool.launch])
    (by simp [Pool.launch]) (fun _ => by simp [Pool.launch, hmg1']) hrun

/-- A schedule in two parts runs the first part, then the second. -/
theorem Pool.run_append (s1 s2 : List Action) :
    ∀ (p : Pool H C J), p.run (s1 ++ s2) = (p.run s1).bind (fun q => q.run s2) := by
  induction s1 with
  | nil => intro p; simp [Pool.run]
  | cons a rest ih =>
    intro p
    simp only [List.cons_append, Pool.run]
    cases p.step a with
    | none => simp
    | some p1 => simp [ih p1]

/-- A schedule whose first step can be taken goes on from the pool it gives. -/
theorem Pool.run_cons_of_step (p p1 : Pool H C J) (a : Action) (rest : List Action)
    (h : p.step a = some p1) : p.run (a :: rest) = p1.run rest := by
  simp only [Pool.run, h]

/-- The signalling loop inside the pool: with room for the `k` signals still
to send, `k + 1` steps of the caller bring it to the wait. -/
theorem Pool.run_signalling (k : Nat) :
    ∀ (p : Pool H C J) (i : Int) (cap : Nat) (buf : List Bool), p.crashed = false →
      p.stop = .signalling i → (p.world.m.concurrency - i).toNat = k →
      p.world.m.quit = some ⟨cap, buf⟩ → buf.length + k ≤ cap →
      ∃ p1, p.run (List.replicate (k + 1) Action.stop) = some p1 ∧
        p1.stop = .waiting ∧ p1.crashed = false ∧
        p1.world.m.quit = some ⟨cap, buf ++ List.replicate k true⟩ ∧
        p1.loops = p.loops ∧ p1.exits = p.exits ∧
        p1.world.m.wg = p.world.m.wg ∧ p1.world.m.mg = p.world.m.mg := by
  induction k with
  | zero =>
    intro p i cap buf hc hpc hk hq _
    have hlt : ¬ i < p.world.m.concurrency := by omega
    refine ⟨{ p with stop := .waiting }, ?_, rfl, hc, by simpa using hq, rfl, rfl, rfl, rfl⟩
    simp [Pool.run, Pool.step, hc, hpc, stopStep, hlt]
  | succ k ih =>
    intro p i cap buf hc hpc hk hq hfit
    have hlt : i < p.world.m.concurrency := by omega
    have hroom : buf.length < cap := by omega
    obtain ⟨p1, hrun, h1, h2, h3, h4, h5, h6, h7⟩ := ih
      { p with
        stop := .signalling (i + 1)
        world := { p.world with m := { p.world.m with quit := some ⟨cap, buf ++ [true]⟩ } } }
      (i + 1) cap (buf ++ [true]) hc rfl (by simp only; omega) rfl (by simp; omega)
    have hstep : p.step Action.stop = some
        { p with
          stop := .signalling (i + 1)
          world := { p.world with
                     m := { p.world.m with quit := some ⟨cap, buf ++ [true]⟩ } } } := by
      simp [Pool.step, hc, hpc, stopStep, hlt, chanSend, hq, hroom]
    refine ⟨p1, ?_, h1, h2, ?_, h4, h5, h6, h7⟩
    · rw [List.replicate_succ, Pool.run_cons_of_step _ _ _ _ hstep]
      exact hrun
    · rw [h3]
      simp [List.replicate_succ]

/-- Replacing the first entry after `a` copies. -/
theorem set_replicate_append {α : Type} (a : Nat) (x y z : α) (l : List α) :
    (List.replicate a x ++ y :: l).set a z = List.replicate a x ++ z :: l := by
  induction a with
  | zero => rfl
  | succ a ih => simp [List.replicate_succ, ih]

/-- The workers leaving one after the other: with one signal buffered for each
of the `b` idle loops, loop `a`, then `a + 1`, and so on, finds a signal,
releases its slot and exits. -/
theorem Pool.run_workers_exit (b : Nat) :
    ∀ (p : Pool H C J) (a cap : Nat), p.crashed = false →
      p.loops = List.replicate a WorkerState.stopped ++ List.replicate b WorkerState.idle →
      p.world.m.quit = some ⟨cap, List.replicate b true⟩ → b ≤ p.world.m.wg →
      p.world.m.wg < 2147483648 →
      ∃ p1, p.run ((List.range' a b).map (fun j => Action.worker j false)) = some p1 ∧
        p1.stop = p.stop ∧ p1.crashed = false ∧
        p1.loops = List.replicate (a + b) WorkerState.stopped ∧
        p1.exits = p.exits + b ∧
        p1.world.m.wg = p.world.m.wg - b ∧ p1.world.m.mg = p.world.m.mg := by
  induction b with
  | zero =>
    intro p a cap hc hl _ _ _
    exact ⟨p, by simp [Pool.run], rfl, hc, by simpa using hl, rfl, by simp, rfl⟩
  | succ b ih =>
    intro p a cap hc hl hq hwg hbound
    have hidle : p.loops[a]? = some WorkerState.idle := by
      rw [hl, List.getElem?_append_right (by simp)]
      simp [List.replicate_succ]
    have hval : wgAdd p.world.m.wg (-1) = p.world.m.wg - 1 := by
      rw [wgAdd_eq _ _ (by omega) (by omega)]; omega
    have hnn : ¬ wgAdd p.world.m.wg (-1) < 0 := by omega
    have hrecv : chanRecv? p.world.m.quit = some (true, ⟨cap, List.replicate b true⟩) := by
      rw [hq]; simp [chanRecv?, List.replicate_succ]
    obtain ⟨p1, hrun, h1, h2, h3, h4, h5, h6⟩ := ih
      { p with
        world := { p.world with
                   m := { p.world.m with
                          quit := some ⟨cap, List.replicate b true⟩
                          wg := p.world.m.wg - 1 } }
        loops := p.loops.set a .stopped
        exits := p.exits + 1 }
      (a + 1) cap hc
      (by
        simp only [hl, List.replicate_succ (n := b), set_replicate_append]
        rw [List.replicate_succ', List.append_assoc]
        rfl)
      rfl (by simp only; omega) (by simp only; omega)
    have hstep : p.step (Action.worker a false) = some
        { p with
          world := { p.world with
                     m := { p.world.m with
                            quit := some ⟨cap, List.replicate b true⟩
                            wg := p.world.m.wg - 1 } }
          loops := p.loops.set a .stopped
          exits := p.exits + 1 } := by
      have hnn1 : ¬ p.world.m.wg - 1 < 0 := by omega
      simp only [Pool.step, hc, Bool.false_eq_true, if_false, workerStep, hidle, hrecv, hval,
        hnn1]
    refine ⟨p1, ?_, h1, h2, ?_, ?_, ?_, h6⟩
    · rw [List.range'_succ, List.map_cons, Pool.run_cons_of_step _ _ _ _ hstep]
      exact hrun
    · rw [h3]; congr 1; omega
    · rw [h4]; simp only; omega
    · rw [h5]; simp only; push_cast; omega

/-- Slots that fit in the 32-bit counter are all taken. -/
theorem takeSlots_fits (k : Nat) :
    ∀ (c : Int), 0 ≤ c → c + k < 2147483648 → takeSlots k c = (c + k, false) := by
  induction k with
  | zero => intro c _ _; simp [takeSlots]
  | succ k ih =>
    intro c h0 hfit
    have hval : wgAdd c 1 = c + 1 := wgAdd_eq c 1 (by omega) (by push_cast at hfit; omega)
    have hnn : ¬ c + 1 < 0 := by omega
    simp only [takeSlots, hval, hnn, if_false]
    rw [ih (c + 1) (by omega) (by push_cast at hfit ⊢; omega)]
    congr 1
    push_cast
    omega

/-- Slots that do not fit in the 32-bit counter make an `Add` panic. -/
theorem takeSlots_overflows (k : Nat) :
    ∀ (c : Int), 0 ≤ c → c < 2147483648 → 2147483648 ≤ c + k → (takeSlots k c).2 = true := by
  induction k with
  | zero => intro c _ h1 h2; simp at h2; omega
  | succ k ih =>
    intro c h0 h1 h2
    by_cases hlast : c + 1 < 2147483648
    · have hval : wgAdd c 1 = c + 1 := wgAdd_eq c 1 (by omega) hlast
      have hnn : ¬ c + 1 < 0 := by omega
      simp only [takeSlots, hval, hnn, if_false]
      exact ih (c + 1) (by omega) hlast (by push_cast at h2 ⊢; omega)
    · have hneg : wgAdd c 1 < 0 := by
        unfold wgAdd wrapInt32
        omega
      simp only [takeSlots, hneg, if_true]

/-- The pool set running by a `Start` on a Master whose worker barrier was at
zero, with fewer workers than the 32-bit barrier can count, satisfies the
invariant and has not crashed. -/
theorem Pool.launch_inv (w : World H C J) (hwg : w.m.wg = 0)
    (hlen : w.goroutines.length < 2147483648) :
    (Pool.launch w).Inv ∧ (Pool.launch w).crashed = false ∧
      (Pool.launch w).world.m.wg = w.goroutines.length := by
  have hslots0 : takeSlots w.goroutines.length 0 = ((w.goroutines.length : Int), false) := by
    rw [takeSlots_fits _ 0 (by omega) (by omega)]
    simp
  have hslots : takeSlots w.goroutines.length w.m.wg = ((w.goroutines.length : Int), false) := by
    rw [hwg, hslots0]
  refine ⟨⟨?_, ?_, ?_, ?_, ?_⟩, ?_, ?_⟩
  · simp [Pool.launch, hslots]
  · simpa [Pool.launch] using hlen
  · simp only [Pool.launch]
    symm
    rw [List.count_eq_zero]
    intro hmem
    simp at hmem
  · intro hp
    rcases hp with hp | hp <;> simp [Pool.launch] at hp
  · intro hp
    simp [Pool.launch, hslots] at hp
  · simp [Pool.launch, hslots]
  · simp [Pool.launch, hslots]

/-- A pool that has crashed takes no further step. -/
theorem Pool.run_crashed (sched : List Action) (p p1 : Pool H C J) (hc : p.crashed = true)
    (h : p.run sched = some p1) : p1 = p := by
  cases sched with
  | nil =>
    simp only [Pool.run, Option.some.injEq] at h
    exact h.symm
  | cons a rest => simp [Pool.run, Pool.step, hc] at h

/-- C8: `Stop` called after `Start` on a Master with concurrency `n` returns
only after exactly `n` worker-exit events: in every run of the pool, when the
caller of `Stop` is back, every worker loop spawned by `Start` has returned,
`n` exits have been counted, and the worker barrier is at zero. -/
theorem Stop_returns_after_all_workers_exit (rt : Runtime) (url : String)
    (tubes : List String) (n : Int)
    (calls : List (Registration H C)) (m0 : Master H C J) (e1 : GoError) (w1 : World H C J)
    (sched : List Action) (p : Pool H C J)
    (hreg : registerAll (NewMaster url tubes n : Master H C J) calls = .returned m0)
    (hstart : Start rt (World.init m0) = .returned (e1, w1))
    (hrun : (Pool.launch w1).run sched = some p)
    (hret : p.stop = .returned) :
    (p.exits : Int) = n ∧ p.loops = List.replicate n.toNat WorkerState.stopped ∧
      p.world.m.wg = 0 ∧ p.crashed = false := by
  obtain ⟨_, hwg0, _, hconc0⟩ := registerAll_NewMaster_idle url tubes n calls m0 hreg
  obtain ⟨_, hn, _, _, _, hwg1, _, _, _, hgo1⟩ := Start_returned_fields rt _ w1 e1 hstart
  have hn0 : 0 ≤ n := by simpa [World.init, hconc0] using hn
  have hwg1' : w1.m.wg = 0 := by rw [hwg1]; simp [World.init, hwg0]
  have hlen0 : (Pool.launch w1).loops.length = n.toNat := by
    simp [Pool.launch, hgo1, World.init, hconc0]
  have hgolen : w1.goroutines.length = n.toNat := by
    rw [hgo1]; simp [World.init, hconc0]
  by_cases hfew : w1.goroutines.length < 2147483648
  · obtain ⟨⟨hsum, hbound, hcount, hpast, hcr⟩, hlen⟩ :=
      Pool.run_inv sched _ p (Pool.launch_inv w1 hwg1' hfew).1 hrun
    have hwg : p.world.m.wg = 0 := hpast (Or.inr hret)
    have hex : p.exits = n.toNat := by omega
    refine ⟨by omega, ?_, hwg, ?_⟩
    · have hall : p.loops.count WorkerState.stopped = p.loops.length := by omega
      have hmem := List.count_eq_length.mp hall
      rw [List.eq_replicate_iff]
      exact ⟨by omega, fun b hb => (hmem b hb).symm⟩
    · cases hcrash : p.crashed with
      | false => rfl
      | true =>
        have := hcr hcrash
        rw [hret] at this
        cases this
  · have hcrash : (Pool.launch w1).crashed = true := by
      have := takeSlots_overflows w1.goroutines.length w1.m.wg (by omega) (by omega)
        (by omega)
      simpa [Pool.launch] using this
    have hp := Pool.run_crashed sched _ p hcrash hrun
    rw [hp] at hret
    simp [Pool.launch] at hret

/-- The end of `Stop` inside the pool: waiting on a barrier at zero with `mg`
at 1, two steps of the caller bring it back to its own caller. -/
theorem Pool.run_finish (p : Pool H C J) (hc : p.crashed = false) (hpc : p.stop = .waiting)
    (hwg : p.world.m.wg = 0) (hmg : p.world.m.mg = 1) :
    ∃ p1, p.run [Action.stop, Action.stop] = some p1 ∧ p1.stop = .returned ∧
      p1.exits = p.exits ∧ p1.loops = p.loops := by
  have hstep1 : p.step Action.stop = some
      { p with
        stop := .finishing
        world := logInfo "master: %d workers stopped" [p.world.m.concurrency] p.world } := by
    simp [Pool.step, hc, hpc, stopStep, hwg]
  have hstep2 : Pool.step
      { p with
        stop := .finishing
        world := logInfo "master: %d workers stopped" [p.world.m.concurrency] p.world }
      Action.stop = some
      { p with
        stop := .returned
        world := logInfo "master: stopped" []
          { logInfo "master: %d workers stopped" [p.world.m.concurrency] p.world with
            m := { p.world.m with mg := wgAdd p.world.m.mg (-1) } } } := by
    have hnn : ¬ wgAdd p.world.m.mg (-1) < 0 := by
      rw [hmg, wgAdd_small 1 (-1) (by omega) (Or.inr rfl)]; omega
    simp [Pool.step, hc, stopStep, hnn, logInfo]
  refine ⟨{ p with
      stop := .returned
      world := logInfo "master: stopped" []
        { logInfo "master: %d workers stopped" [p.world.m.concurrency] p.world with
          m := { p.world.m with mg := wgAdd p.world.m.mg (-1) } } }, ?_, rfl, rfl, rfl⟩
  rw [Pool.run_cons_of_step _ _ _ _ hstep1, Pool.run_cons_of_step _ _ _ _ hstep2]
  rfl

/-- `Stop` can return: after a `Start` on a Master from `NewMaster` with fewer
workers than the 32-bit barrier can count, the orderly shutdown runs to its
end, with the caller of `Stop` back and one exit event per worker. -/
theorem Stop_can_return (rt : Runtime) (url : String) (tubes : List String) (n : Int)
    (calls : List (Registration H C)) (m0 : Master H C J) (e1 : GoError) (w1 : World H C J)
    (hreg : registerAll (NewMaster url tubes n : Master H C J) calls = .returned m0)
    (hstart : Start rt (World.init m0) = .returned (e1, w1))
    (hfew : n < 2147483648) :
    ∃ p, (Pool.launch w1).run (Pool.shutdown n.toNat) = some p ∧ p.stop = .returned ∧
      p.exits = n.toNat := by
  obtain ⟨hmg0, hwg0, _, hconc0⟩ := registerAll_NewMaster_idle url tubes n calls m0 hreg
  obtain ⟨_, hn, hconc1, hmg1, _, hwg1, hquit1, _, _, hgo1⟩ :=
    Start_returned_fields rt _ w1 e1 hstart
  have hc1 : w1.m.concurrency = n := by rw [hconc1]; exact hconc0
  have hq1 : w1.m.quit = some ⟨n.toNat, []⟩ := by rw [hquit1]; simp [World.init, hconc0]
  have hmg1' : w1.m.mg = 1 := by
    rw [hmg1]
    simp only [World.init, hmg0]
    exact wgAdd_small 0 1 (by omega) (Or.inl rfl)
  have hwg1' : w1.m.wg = 0 := by rw [hwg1]; simp [World.init, hwg0]
  have hlen : w1.goroutines.length = n.toNat := by
    rw [hgo1]; simp [World.init, hconc0]
  obtain ⟨_, hcr0, hwgL⟩ := Pool.launch_inv w1 hwg1' (by omega)
  have hloops : (Pool.launch w1).loops
      = List.replicate 0 WorkerState.stopped ++ List.replicate n.toNat WorkerState.idle := by
    simp only [Pool.launch, List.replicate_zero, List.nil_append]
    rw [List.eq_replicate_iff]
    exact ⟨by simp [hlen], by intro b hb; simp at hb; exact hb.2⟩
  have hstop0 : (Pool.launch w1).stop = .entry := rfl
  have hstep0 : (Pool.launch w1).step Action.stop = some
      { Pool.launch w1 with
        stop := .signalling 0
        world := logInfo "master: stopping %d workers..." [w1.m.concurrency]
          (Pool.launch w1).world } := by
    simp only [Pool.step, hcr0, Bool.false_eq_true, if_false, hstop0, stopStep]
    rfl
  obtain ⟨pB, hrunB, hB1, hB2, hB3, hB4, hB5, hB6, hB7⟩ := Pool.run_signalling n.toNat
    { Pool.launch w1 with
      stop := .signalling 0
      world := logInfo "master: stopping %d workers..." [w1.m.concurrency]
        (Pool.launch w1).world }
    0 n.toNat [] hcr0 rfl (by simp [logInfo, Pool.launch, hc1])
    (by simp [logInfo, Pool.launch, hq1]) (by simp)
  simp only [List.nil_append] at hB3
  have hwgB : pB.world.m.wg = n.toNat := by
    rw [hB6]
    simp only [logInfo]
    rw [hwgL, hlen]
  have hmgB : pB.world.m.mg = 1 := by
    rw [hB7]; simp [logInfo, Pool.launch, hmg1']
  obtain ⟨pC, hrunC, hC1, hC2, hC3, hC4, hC5, hC6⟩ := Pool.run_workers_exit n.toNat pB 0
    n.toNat hB2 (by rw [hB4]; exact hloops) hB3 (by omega) (by omega)
  obtain ⟨pD, hrunD, hD1, hD2, _⟩ := Pool.run_finish pC hC2 (by rw [hC1, hB1])
    (by rw [hC5, hwgB]; omega) (by rw [hC6, hmgB])
  refine ⟨pD, ?_, hD1, ?_⟩
  · unfold Pool.shutdown
    rw [Pool.run_append, List.replicate_succ, Pool.run_cons_of_step _ _ _ _ hstep0, hrunB]
    simp only [Option.some_bind]
    rw [Pool.run_append, hrunC]
    simp only [Option.some_bind]
    exact hrunD
  · rw [hD2, hC4, hB5]
    simp [Pool.launch]

/-- Witness of C8: concurrency 2; `Stop` sends both signals, the two workers
take one each and exit, then `Stop` passes the barrier and returns. -/
theorem Stop_returns_after_all_workers_exit_witness :
    ∃ p, (Pool.launch (Start Runtime.amd64 (World.init
        (NewMaster "localhost:11300" ["default"] 2 : Master Nat Nat Nat))).state.2).run
      [.stop, .stop, .stop, .stop, .worker 1 false, .worker 0 false, .stop, .stop] = some p ∧
      p.stop = .returned ∧ (p.exits : Int) = 2 ∧
      p.loops = [WorkerState.stopped, WorkerState.stopped] := by
  cases hp : (Pool.launch (Start Runtime.amd64 (World.init
      (NewMaster "localhost:11300" ["default"] 2 : Master Nat Nat Nat))).state.2).run
    [.stop, .stop, .stop, .stop, .worker 1 false, .worker 0 false, .stop, .stop] with
  | none =>
    have h : ((Pool.launch (Start Runtime.amd64 (World.init
        (NewMaster "localhost:11300" ["default"] 2 : Master Nat Nat Nat))).state.2).run
      [.stop, .stop, .stop, .stop, .worker 1 false, .worker 0 false, .stop, .stop]).isSome
        = true := rfl
    rw [hp] at h
    cases h
  | some p =>
    have h : ((Pool.launch (Start Runtime.amd64 (World.init
        (NewMaster "localhost:11300" ["default"] 2 : Master Nat Nat Nat))).state.2).run
      [.stop, .stop, .stop, .stop, .worker 1 false, .worker 0 false, .stop, .stop]).map
        (fun q => q.stop) = some StopPc.returned := rfl
    rw [hp] at h
    have hstop : p.stop = .returned := by simpa using h
    have hthm := Stop_returns_after_all_workers_exit Runtime.amd64 "localhost:11300"
      ["default"] 2 []
      (NewMaster "localhost:11300" ["default"] 2 : Master Nat Nat Nat) none
      (Start Runtime.amd64 (World.init
        (NewMaster "localhost:11300" ["default"] 2 : Master Nat Nat Nat))).state.2
      [.stop, .stop, .stop, .stop, .worker 1 false, .worker 0 false, .stop, .stop] p
      rfl rfl hp hstop
    exact ⟨p, rfl, hstop, hthm.1, hthm.2.1⟩

end Running

end Workout
